import Mathlib

/-!
Verification of the sales-bonus analytics engine (`src/main.js`).

The JavaScript source is shallowly embedded: JS numbers are modelled as
exact rationals (`ℚ`), JS objects used as string-keyed maps are modelled
as insertion-ordered association lists (`List (String × β)`), JS `Set`s
as insertion-ordered duplicate-free lists, and fallible operations
(`undefined` access, `null` dereference) as `Option`.  `Array.prototype.sort`
is stable by the ECMAScript specification and is modelled as a stable
insertion sort.  Every definition follows the corresponding function in
`src/main.js`; the only definitions written from the specification's
words instead of from the source are explicitly marked as such.
-/

/-! ## Data model (§3 of the spec) -/

/-- An item of a purchase record: `{ sku, sale_price, quantity, discount }`. -/
structure Item where
  sku : String
  sale_price : ℚ
  quantity : ℚ
  discount : ℚ
deriving DecidableEq, Repr

/-- A catalog product: `{ sku, purchase_price }`. -/
structure Product where
  sku : String
  purchase_price : ℚ
deriving DecidableEq, Repr

/-- A seller catalog entry. -/
structure Seller where
  id : String
  first_name : String
  last_name : String
  start_date : String
  position : String
deriving DecidableEq, Repr

/-- A customer catalog entry. -/
structure Customer where
  id : String
deriving DecidableEq, Repr

/-- A purchase record. -/
structure PurchaseRecord where
  seller_id : String
  customer_id : String
  date : String
  total_amount : ℚ
  items : List Item
deriving DecidableEq, Repr

/-- A bonus award `{ category, seller_id, bonus }`.  `seller_id` is an
`Option` because `bonusStableGrowth` can return JS `undefined` there. -/
structure BonusResult where
  category : String
  seller_id : Option String
  bonus : ℚ
deriving DecidableEq, Repr

/-- `+(x).toFixed(2)`: rounding to two decimal places. -/
def round2 (q : ℚ) : ℚ := (round (q * 100) : ℤ) / 100

/-! ## Association-list primitives

JS objects used as maps: key lookup, in-place value update of the first
(and, keys being unique in an actual JS object, only) binding, and
append-on-first-sight.  All skus/ids are modelled as non-index string
keys, so `Object.entries` enumeration order is insertion order. -/

/-- Update the value of the first binding of key `k`, keeping its position. -/
def updVal {β : Type} : List (String × β) → String → (β → β) → List (String × β)
  | [], _, _ => []
  | (k', v) :: t, k, g => if k' = k then (k', g v) :: t else (k', v) :: updVal t k g

/-- `acc[k] !== undefined`. -/
def hasKey {β : Type} (l : List (String × β)) (k : String) : Bool :=
  l.any (fun e => e.1 = k)

/-- `acc[k]`, with a default for absent keys. -/
def getVal {β : Type} (l : List (String × β)) (k : String) (d : β) : β :=
  ((l.find? (fun e => e.1 = k)).map (fun e => e.2)).getD d

@[simp] theorem updVal_nil {β : Type} (k : String) (g : β → β) :
    updVal [] k g = [] := rfl

@[simp] theorem hasKey_nil {β : Type} (k : String) :
    hasKey ([] : List (String × β)) k = false := rfl

@[simp] theorem hasKey_cons {β : Type} (e : String × β) (t : List (String × β)) (k : String) :
    hasKey (e :: t) k = (e.1 = k || hasKey t k) := by
  simp [hasKey, List.any_cons]

@[simp] theorem getVal_nil {β : Type} (k : String) (d : β) :
    getVal ([] : List (String × β)) k d = d := rfl

theorem getVal_cons {β : Type} (e : String × β) (t : List (String × β)) (k : String) (d : β) :
    getVal (e :: t) k d = if e.1 = k then e.2 else getVal t k d := by
  by_cases h : e.1 = k <;> simp [getVal, List.find?_cons, h]

/-! ## `groupBy` (§4.1) -/

/-- One step of the `reduce` in `groupBy`: create the bucket on first
sight, then push the item. -/
def bucketAdd {α : Type} (acc : List (String × List α)) (k : String) (x : α) :
    List (String × List α) :=
  if hasKey acc k then updVal acc k (fun b => b ++ [x]) else acc ++ [(k, [x])]

/-- `groupBy(array, keyFn)` from `src/main.js`. -/
def groupBy {α : Type} (array : List α) (keyFn : α → String) : List (String × List α) :=
  array.foldl (fun acc item => bucketAdd acc (keyFn item) item) []

/-- First-occurrence order of a list of keys (JS object key insertion order). -/
def firstOccur (ks : List String) : List String :=
  ks.foldl (fun a k => if k ∈ a then a else a ++ [k]) []

theorem updVal_map_fst {β : Type} (l : List (String × β)) (k : String) (g : β → β) :
    (updVal l k g).map Prod.fst = l.map Prod.fst := by
  induction l with
  | nil => rfl
  | cons e t ih =>
    obtain ⟨k', v⟩ := e
    by_cases h : k' = k <;> simp [updVal, h, ih]

theorem hasKey_iff_mem_map_fst {β : Type} (l : List (String × β)) (k : String) :
    hasKey l k = true ↔ k ∈ l.map Prod.fst := by
  simp [hasKey, List.any_eq_true]

theorem bucketAdd_map_fst {α : Type} (acc : List (String × List α)) (k : String) (x : α) :
    (bucketAdd acc k x).map Prod.fst =
      (if k ∈ acc.map Prod.fst then acc.map Prod.fst else acc.map Prod.fst ++ [k]) := by
  unfold bucketAdd
  by_cases h : hasKey acc k
  · rw [if_pos h, updVal_map_fst, if_pos ((hasKey_iff_mem_map_fst acc k).1 h)]
  · rw [if_neg h, if_neg (fun hm => h ((hasKey_iff_mem_map_fst acc k).2 hm))]
    simp

theorem groupBy_keys_aux {α : Type} (l : List α) (f : α → String) :
    ∀ acc : List (String × List α),
      (l.foldl (fun a i => bucketAdd a (f i) i) acc).map Prod.fst =
        (l.map f).foldl (fun a k => if k ∈ a then a else a ++ [k]) (acc.map Prod.fst) := by
  induction l with
  | nil => intro acc; rfl
  | cons x t ih =>
    intro acc
    simp only [List.foldl_cons, List.map_cons]
    rw [ih, bucketAdd_map_fst]

theorem bucketAdd_cons_ne {α : Type} (ke : String) (v : List α) (t : List (String × List α))
    (k' : String) (x : α) (h : ke ≠ k') :
    bucketAdd ((ke, v) :: t) k' x = (ke, v) :: bucketAdd t k' x := by
  unfold bucketAdd
  by_cases h2 : hasKey t k'
  · rw [if_pos, if_pos h2]
    · simp [updVal, h]
    · simp [h, h2]
  · rw [if_neg, if_neg h2, List.cons_append]
    simp [h, h2]

/-- Bucket contents: appending an item to its bucket, viewed through `getVal`. -/
theorem getVal_bucketAdd {α : Type} (acc : List (String × List α)) (k k' : String) (x : α) :
    getVal (bucketAdd acc k' x) k [] =
      getVal acc k [] ++ (if k' = k then [x] else []) := by
  induction acc with
  | nil =>
    by_cases h : k' = k <;> simp [bucketAdd, hasKey, getVal_cons, h]
  | cons e t ih =>
    obtain ⟨ke, v⟩ := e
    by_cases h1 : ke = k'
    · subst h1
      have hk : hasKey ((ke, v) :: t) ke = true := by simp
      rw [bucketAdd, if_pos hk]
      simp only [updVal, if_pos rfl]
      by_cases h2 : ke = k <;> simp [getVal_cons, h2]
    · rw [bucketAdd_cons_ne ke v t k' x h1]
      by_cases h3 : ke = k
      · subst h3
        have h4 : ¬ k' = ke := fun hc => h1 hc.symm
        simp [getVal_cons, h4]
      · simp [getVal_cons, h3, ih]

theorem groupBy_getVal_aux {α : Type} (l : List α) (f : α → String) (k : String) :
    ∀ acc : List (String × List α),
      getVal (l.foldl (fun a i => bucketAdd a (f i) i) acc) k [] =
        getVal acc k [] ++ l.filter (fun x => f x = k) := by
  induction l with
  | nil => intro acc; simp
  | cons x t ih =>
    intro acc
    simp only [List.foldl_cons]
    rw [ih, getVal_bucketAdd]
    by_cases h : f x = k
    · simp [List.filter_cons, h]
    · simp [List.filter_cons, h]

/-- C6.  `groupBy`: bucket enumeration order is first-occurrence order of
the keys, and each bucket holds exactly the items mapping to its key, in
their original input order (hence stable for equal keys). -/
theorem groupBy_order_spec {α : Type} (items : List α) (keyFn : α → String) :
    (groupBy items keyFn).map Prod.fst = firstOccur (items.map keyFn) ∧
    ∀ k : String, getVal (groupBy items keyFn) k [] =
      items.filter (fun x => keyFn x = k) := by
  constructor
  · rw [groupBy, firstOccur, groupBy_keys_aux]
    rfl
  · intro k
    rw [groupBy, groupBy_getVal_aux]
    rfl

/-! ## `analyzeSequence` (§4.2)

JS float semantics at a zero denominator:
`|cur - prev| / |prev|` with `prev = 0` is `Infinity` when `cur ≠ 0`
(and `Infinity > tolerance` holds for every finite tolerance) and `NaN`
when `cur = 0` (and `NaN > tolerance` is false).  Away from a zero
denominator the arithmetic is exact and is modelled on `ℚ`. -/

structure Trends where
  isStable : Bool
  isIncreasing : Bool
  isDecreasing : Bool
deriving DecidableEq, Repr

/-- `relativeChange > tolerance` for one consecutive pair, including the
zero-denominator cases described above. -/
def relExceeds (prev cur tolerance : ℚ) : Bool :=
  if prev ≠ 0 then |cur - prev| / |prev| > tolerance
  else if cur ≠ 0 then true
  else false

/-- The stability scan of `analyzeSequence`: walk consecutive pairs and
stop at the first violation (stopping early returns the same value). -/
def stableFrom (prev : ℚ) (rest : List ℚ) (tolerance : ℚ) : Bool :=
  match rest with
  | [] => true
  | cur :: t => if relExceeds prev cur tolerance then false else stableFrom cur t tolerance

/-- `analyzeSequence(sequence, tolerance)` from `src/main.js`. -/
def analyzeSequence (sequence : List ℚ) (tolerance : ℚ) : Trends :=
  match sequence with
  | [] => ⟨true, false, false⟩
  | [_] => ⟨true, false, false⟩
  | a :: b :: t =>
    let e := (b :: t).getLast (List.cons_ne_nil b t)
    let totalChange := e - a
    ⟨stableFrom a (b :: t) tolerance, decide (totalChange > 0), decide (totalChange < 0)⟩

theorem stableFrom_eq_chain (tolerance : ℚ) :
    ∀ (rest : List ℚ) (prev : ℚ), (rest ≠ [] → prev ≠ 0) → (∀ x ∈ rest.dropLast, x ≠ 0) →
      (stableFrom prev rest tolerance = true ↔
        List.Chain' (fun p c => |c - p| / |p| ≤ tolerance) (prev :: rest)) := by
  intro rest
  induction rest with
  | nil => intro prev _ _; simp [stableFrom]
  | cons cur t ih =>
    intro prev hp hr
    have hprev : prev ≠ 0 := hp (List.cons_ne_nil cur t)
    have hrel : relExceeds prev cur tolerance = decide (|cur - prev| / |prev| > tolerance) := by
      simp [relExceeds, hprev]
    have hp' : t ≠ [] → cur ≠ 0 := by
      intro ht
      apply hr
      cases t with
      | nil => exact absurd rfl ht
      | cons y ys => rw [List.dropLast_cons₂]; simp
    have hr' : ∀ x ∈ t.dropLast, x ≠ 0 := by
      intro x hx
      apply hr
      cases t with
      | nil => simp at hx
      | cons y ys =>
        rw [List.dropLast_cons₂]
        exact List.mem_cons_of_mem cur hx
    rw [stableFrom, hrel]
    by_cases hgt : |cur - prev| / |prev| > tolerance
    · simp [hgt, List.chain'_cons, not_le.2 hgt]
    · have hd : decide (|cur - prev| / |prev| > tolerance) = false := by
        simpa using hgt
      rw [hd]
      simp only [Bool.false_eq_true, if_false, List.chain'_cons]
      rw [ih cur hp' hr']
      simp [not_lt.1 hgt]

/-- C3.  `analyzeSequence`: sequences shorter than 2 yield
`{isStable: true, isIncreasing: false, isDecreasing: false}`; for longer
sequences whose elements other than the last are all nonzero,
`isIncreasing` iff `last - first > 0`, `isDecreasing` iff
`last - first < 0`, and `isStable` iff every consecutive pair satisfies
`|s[i] - s[i-1]| / |s[i-1]| <= tolerance`. -/
theorem analyzeSequence_spec (sequence : List ℚ) (tolerance : ℚ) :
    (sequence.length < 2 → analyzeSequence sequence tolerance = ⟨true, false, false⟩) ∧
    (∀ a b t, sequence = a :: b :: t →
      (∀ x ∈ (a :: b :: t).dropLast, x ≠ 0) →
      (((analyzeSequence sequence tolerance).isIncreasing = true ↔
          0 < (b :: t).getLast (List.cons_ne_nil b t) - a) ∧
       ((analyzeSequence sequence tolerance).isDecreasing = true ↔
          (b :: t).getLast (List.cons_ne_nil b t) - a < 0) ∧
       ((analyzeSequence sequence tolerance).isStable = true ↔
          List.Chain' (fun p c => |c - p| / |p| ≤ tolerance) (a :: b :: t)))) := by
  constructor
  · intro hlen
    match sequence with
    | [] => rfl
    | [x] => rfl
    | a :: b :: t => simp at hlen; omega
  · intro a b t hseq hnz
    subst hseq
    have hdrop : (a :: b :: t).dropLast = a :: (b :: t).dropLast := List.dropLast_cons₂
    have hp : (b :: t) ≠ [] → a ≠ 0 := fun _ => hnz a (by rw [hdrop]; simp)
    have hr : ∀ x ∈ (b :: t).dropLast, x ≠ 0 := fun x hx =>
      hnz x (by rw [hdrop]; exact List.mem_cons_of_mem a hx)
    refine ⟨?_, ?_, ?_⟩
    · simp [analyzeSequence, sub_pos]
    · simp [analyzeSequence, sub_neg]
    · exact stableFrom_eq_chain tolerance (b :: t) a hp hr

/-- Witness for C3 at concrete inputs: the length-1 contract, and the
increasing classification of `[100, 102, 104, 106]`. -/
theorem analyzeSequence_spec_witness :
    analyzeSequence [10] (1/20) = ⟨true, false, false⟩ ∧
    ((analyzeSequence [100, 102, 104, 106] (1/20)).isIncreasing = true ↔
      0 < (((102 : ℚ) :: [104, 106]).getLast (List.cons_ne_nil 102 [104, 106])) - 100) :=
  ⟨(analyzeSequence_spec [10] (1/20)).1 (by simp),
   ((analyzeSequence_spec [100, 102, 104, 106] (1/20)).2 100 102 [104, 106] rfl
      (by decide)).1⟩

/-! ## `calculateAverage` and `getTopN` helpers -/

/-- `calculateAverage(values)` from `src/main.js`: `sum / length || 0`.
On `ℚ` the empty case gives `0 / 0 = 0`, which coincides with the JS
`NaN || 0` fallback; a nonempty list never divides by zero. -/
def calculateAverage (values : List ℚ) : ℚ :=
  (values.foldl (fun acc value => acc + value) 0) / (values.length : ℚ)

/-! ## `baseMetrics` (§4.3, the Metrics Accumulator)

`calculateProfit` receives the result of `products.find(...)`, which is
`undefined` when no product matches the item's sku, so the injected
profit function is typed `Item → Option Product → ℚ`. -/

/-- A seller aggregate `{ revenue, profit, items, customers }`;
`customers` is a JS `Set`, modelled as an insertion-ordered
duplicate-free list. -/
structure SellerAgg where
  revenue : ℚ
  profit : ℚ
  items : List Item
  customers : List String
deriving DecidableEq, Repr

/-- A customer aggregate `{ revenue, profit, sellers }`. -/
structure CustomerAgg where
  revenue : ℚ
  profit : ℚ
  sellers : List String
deriving DecidableEq, Repr

/-- A product aggregate `{ quantity, revenue }`. -/
structure ProductAgg where
  quantity : ℚ
  revenue : ℚ
deriving DecidableEq, Repr

/-- The accumulator `{ sellers: {}, customers: {}, products: {} }`. -/
structure Stats where
  sellers : List (String × SellerAgg)
  customers : List (String × CustomerAgg)
  products : List (String × ProductAgg)
deriving DecidableEq, Repr

/-- `Set.prototype.add`: append on first sight. -/
def addSet (s : List String) (x : String) : List String :=
  if x ∈ s then s else s ++ [x]

/-- An item's line revenue `sale_price * quantity * (1 - discount / 100)`. -/
def lineRevenue (item : Item) : ℚ :=
  item.sale_price * item.quantity * (1 - item.discount / 100)

/-- `products.find(p => p.sku === item.sku)`: first match. -/
def findProduct (products : List Product) (sku : String) : Option Product :=
  products.find? (fun p => p.sku = sku)

/-- The body of the `record.items.forEach` in `baseMetrics`: update the
seller, customer, and product aggregates with one item. -/
def baseItemStep (calculateProfit : Item → Option Product → ℚ) (products : List Product)
    (sellerId customerId : String) (acc : Stats) (item : Item) : Stats :=
  let product := findProduct products item.sku
  let profit := calculateProfit item product
  let acc1 : Stats := { acc with
    sellers := updVal acc.sellers sellerId (fun b =>
      { revenue := b.revenue + lineRevenue item
        profit := b.profit + profit
        items := b.items ++ [item]
        customers := addSet b.customers customerId }) }
  let acc2 : Stats := { acc1 with
    customers := updVal acc1.customers customerId (fun b =>
      { revenue := b.revenue + lineRevenue item
        profit := b.profit + profit
        sellers := addSet b.sellers sellerId }) }
  { acc2 with
    products :=
      let created := if hasKey acc2.products item.sku then acc2.products
        else acc2.products ++ [(item.sku, ⟨0, 0⟩)]
      updVal created item.sku (fun b =>
        { quantity := b.quantity + item.quantity
          revenue := b.revenue + lineRevenue item }) }

/-- `if (!acc.sellers[sellerId]) acc.sellers[sellerId] = { revenue: 0, ... }`. -/
def ensureSeller (acc : Stats) (sellerId : String) : Stats :=
  if hasKey acc.sellers sellerId then acc
  else { acc with sellers := acc.sellers ++ [(sellerId, ⟨0, 0, [], []⟩)] }

/-- `if (!acc.customers[customerId]) acc.customers[customerId] = { revenue: 0, ... }`. -/
def ensureCustomer (acc : Stats) (customerId : String) : Stats :=
  if hasKey acc.customers customerId then acc
  else { acc with customers := acc.customers ++ [(customerId, ⟨0, 0, []⟩)] }

/-- The body of the `records.reduce` in `baseMetrics`: lazily create the
seller and customer buckets, then fold the record's items. -/
def baseRecordStep (calculateProfit : Item → Option Product → ℚ) (products : List Product)
    (acc : Stats) (record : PurchaseRecord) : Stats :=
  record.items.foldl
    (baseItemStep calculateProfit products record.seller_id record.customer_id)
    (ensureCustomer (ensureSeller acc record.seller_id) record.customer_id)

/-- `baseMetrics(records, calculateProfit, products)` from `src/main.js`. -/
def baseMetrics (records : List PurchaseRecord)
    (calculateProfit : Item → Option Product → ℚ) (products : List Product) : Stats :=
  records.foldl (baseRecordStep calculateProfit products) ⟨[], [], []⟩

/-! ### C5: revenue conservation over the seller aggregates -/

/-- Sum of the `revenue` fields over all seller buckets. -/
def sellersRevenueSum (st : Stats) : ℚ :=
  (st.sellers.map (fun e => e.2.revenue)).sum

theorem updVal_sum {β : Type} (m : β → ℚ) (g : β → β) (δ : ℚ)
    (hg : ∀ v, m (g v) = m v + δ) :
    ∀ (l : List (String × β)) (k : String), hasKey l k = true →
      ((updVal l k g).map (fun e => m e.2)).sum = (l.map (fun e => m e.2)).sum + δ := by
  intro l
  induction l with
  | nil => intro k hk; simp at hk
  | cons e t ih =>
    intro k hk
    obtain ⟨ke, v⟩ := e
    by_cases h : ke = k
    · simp [updVal, h, hg, add_assoc, add_comm δ]
    · have ht : hasKey t k = true := by
        simp [h] at hk
        exact hk
      simp [updVal, h, ih k ht, add_assoc]

theorem baseItemStep_sellers_keys (calculateProfit : Item → Option Product → ℚ)
    (products : List Product) (sellerId customerId : String) (acc : Stats) (item : Item) :
    (baseItemStep calculateProfit products sellerId customerId acc item).sellers.map Prod.fst =
      acc.sellers.map Prod.fst := by
  simp [baseItemStep, updVal_map_fst]

theorem hasKey_congr_keys {β : Type} (l l' : List (String × β)) (k : String)
    (h : l.map Prod.fst = l'.map Prod.fst) : hasKey l k = hasKey l' k := by
  by_cases hk : hasKey l' k
  · rw [hk, hasKey_iff_mem_map_fst, h, ← hasKey_iff_mem_map_fst]
    exact hk
  · rw [Bool.eq_false_iff.2 hk]
    rw [Bool.eq_false_iff]
    intro hc
    exact hk (by rw [hasKey_iff_mem_map_fst, ← h, ← hasKey_iff_mem_map_fst]; exact hc)

theorem baseItemStep_sellers (calculateProfit : Item → Option Product → ℚ)
    (products : List Product) (sellerId customerId : String) (acc : Stats) (item : Item) :
    (baseItemStep calculateProfit products sellerId customerId acc item).sellers =
      updVal acc.sellers sellerId (fun b =>
        { revenue := b.revenue + lineRevenue item
          profit := b.profit + calculateProfit item (findProduct products item.sku)
          items := b.items ++ [item]
          customers := addSet b.customers customerId }) := rfl

theorem baseItemStep_revSum (calculateProfit : Item → Option Product → ℚ)
    (products : List Product) (sellerId customerId : String) (acc : Stats) (item : Item)
    (hk : hasKey acc.sellers sellerId = true) :
    sellersRevenueSum (baseItemStep calculateProfit products sellerId customerId acc item) =
      sellersRevenueSum acc + lineRevenue item := by
  unfold sellersRevenueSum
  rw [baseItemStep_sellers]
  refine updVal_sum (fun b => b.revenue) _ (lineRevenue item) ?_ acc.sellers sellerId hk
  intro v
  rfl

theorem baseItems_revSum (calculateProfit : Item → Option Product → ℚ)
    (products : List Product) (sellerId customerId : String) :
    ∀ (items : List Item) (acc : Stats), hasKey acc.sellers sellerId = true →
      sellersRevenueSum
          (items.foldl (baseItemStep calculateProfit products sellerId customerId) acc) =
        sellersRevenueSum acc + (items.map lineRevenue).sum := by
  intro items
  induction items with
  | nil => intro acc _; simp
  | cons i t ih =>
    intro acc hk
    have hk' : hasKey (baseItemStep calculateProfit products sellerId customerId acc i).sellers
        sellerId = true := by
      rw [hasKey_congr_keys _ acc.sellers sellerId
        (baseItemStep_sellers_keys calculateProfit products sellerId customerId acc i)]
      exact hk
    simp only [List.foldl_cons, List.map_cons, List.sum_cons]
    rw [ih _ hk', baseItemStep_revSum calculateProfit products sellerId customerId acc i hk]
    ring

theorem hasKey_append_self {β : Type} (l : List (String × β)) (k : String) (v : β) :
    hasKey (l ++ [(k, v)]) k = true := by
  simp [hasKey, List.any_append]

theorem ensureSeller_revSum (acc : Stats) (sellerId : String) :
    sellersRevenueSum (ensureSeller acc sellerId) = sellersRevenueSum acc := by
  unfold ensureSeller
  by_cases h : hasKey acc.sellers sellerId <;> simp [h, sellersRevenueSum]

theorem ensureSeller_hasKey (acc : Stats) (sellerId : String) :
    hasKey (ensureSeller acc sellerId).sellers sellerId = true := by
  unfold ensureSeller
  by_cases h : hasKey acc.sellers sellerId
  · rw [if_pos h]
    exact h
  · rw [if_neg h]
    exact hasKey_append_self acc.sellers sellerId ⟨0, 0, [], []⟩

theorem ensureCustomer_sellers (acc : Stats) (customerId : String) :
    (ensureCustomer acc customerId).sellers = acc.sellers := by
  unfold ensureCustomer
  by_cases h : hasKey acc.customers customerId <;> simp [h]

theorem baseRecordStep_revSum (calculateProfit : Item → Option Product → ℚ)
    (products : List Product) (acc : Stats) (record : PurchaseRecord) :
    sellersRevenueSum (baseRecordStep calculateProfit products acc record) =
      sellersRevenueSum acc + (record.items.map lineRevenue).sum := by
  unfold baseRecordStep
  rw [baseItems_revSum calculateProfit products record.seller_id record.customer_id
    record.items _
    (by rw [hasKey_congr_keys _ (ensureSeller acc record.seller_id).sellers record.seller_id
          (by rw [ensureCustomer_sellers])]
        exact ensureSeller_hasKey acc record.seller_id)]
  have h2 : sellersRevenueSum (ensureCustomer (ensureSeller acc record.seller_id)
      record.customer_id) = sellersRevenueSum (ensureSeller acc record.seller_id) := by
    unfold sellersRevenueSum
    rw [ensureCustomer_sellers]
  rw [h2, ensureSeller_revSum]

/-- C5.  Revenue conservation: for every record list, profit function and
product catalog, the sum of the seller buckets' `revenue` fields produced
by `baseMetrics` equals the sum over every item of every record of
`sale_price * quantity * (1 - discount / 100)`. -/
theorem baseMetrics_revenue_conservation (records : List PurchaseRecord)
    (calculateProfit : Item → Option Product → ℚ) (products : List Product) :
    sellersRevenueSum (baseMetrics records calculateProfit products) =
      (records.map (fun r => (r.items.map lineRevenue).sum)).sum := by
  unfold baseMetrics
  have : ∀ (rs : List PurchaseRecord) (acc : Stats),
      sellersRevenueSum (rs.foldl (baseRecordStep calculateProfit products) acc) =
        sellersRevenueSum acc + (rs.map (fun r => (r.items.map lineRevenue).sum)).sum := by
    intro rs
    induction rs with
    | nil => intro acc; simp
    | cons r t ih =>
      intro acc
      simp only [List.foldl_cons, List.map_cons, List.sum_cons]
      rw [ih, baseRecordStep_revSum]
      ring
  rw [this]
  simp [sellersRevenueSum]

/-! ### C1: unknown skus are NOT skipped by `baseMetrics`

`baseMetrics` has no guard on the result of `products.find`: the item's
line revenue is accumulated unconditionally and `calculateProfit` is
invoked with `undefined` (here `none`) as the product. -/

/-- Sum of the `revenue` fields over all product buckets. -/
def productsRevenueSum (st : Stats) : ℚ :=
  (st.products.map (fun e => e.2.revenue)).sum

theorem getVal_updVal_self {β : Type} (l : List (String × β)) (k : String) (g : β → β) (d : β) :
    getVal (updVal l k g) k d = if hasKey l k then g (getVal l k d) else d := by
  induction l with
  | nil => simp
  | cons e t ih =>
    obtain ⟨ke, v⟩ := e
    by_cases h : ke = k
    · subst h
      simp [updVal, getVal_cons]
    · simp only [updVal, h, if_false, getVal_cons, hasKey_cons]
      rw [ih]
      simp [h]

theorem baseItemStep_customers (calculateProfit : Item → Option Product → ℚ)
    (products : List Product) (sellerId customerId : String) (acc : Stats) (item : Item) :
    (baseItemStep calculateProfit products sellerId customerId acc item).customers =
      updVal acc.customers customerId (fun b =>
        { revenue := b.revenue + lineRevenue item
          profit := b.profit + calculateProfit item (findProduct products item.sku)
          sellers := addSet b.sellers sellerId }) := rfl

theorem baseItems_seller_track (calculateProfit : Item → Option Product → ℚ)
    (products : List Product) (sellerId customerId : String) (d : SellerAgg) :
    ∀ (items : List Item) (acc : Stats), hasKey acc.sellers sellerId = true →
      getVal ((items.foldl (baseItemStep calculateProfit products sellerId customerId)
          acc)).sellers sellerId d =
        items.foldl (fun b i =>
          { revenue := b.revenue + lineRevenue i
            profit := b.profit + calculateProfit i (findProduct products i.sku)
            items := b.items ++ [i]
            customers := addSet b.customers customerId })
          (getVal acc.sellers sellerId d) := by
  intro items
  induction items with
  | nil => intro acc _; simp
  | cons i t ih =>
    intro acc hk
    have hk' : hasKey (baseItemStep calculateProfit products sellerId customerId acc i).sellers
        sellerId = true := by
      rw [hasKey_congr_keys _ acc.sellers sellerId
        (baseItemStep_sellers_keys calculateProfit products sellerId customerId acc i)]
      exact hk
    simp only [List.foldl_cons]
    rw [ih _ hk', baseItemStep_sellers, getVal_updVal_self, if_pos hk]

theorem baseItems_customer_track (calculateProfit : Item → Option Product → ℚ)
    (products : List Product) (sellerId customerId : String) (d : CustomerAgg) :
    ∀ (items : List Item) (acc : Stats), hasKey acc.customers customerId = true →
      getVal ((items.foldl (baseItemStep calculateProfit products sellerId customerId)
          acc)).customers customerId d =
        items.foldl (fun b i =>
          { revenue := b.revenue + lineRevenue i
            profit := b.profit + calculateProfit i (findProduct products i.sku)
            sellers := addSet b.sellers sellerId })
          (getVal acc.customers customerId d) := by
  intro items
  induction items with
  | nil => intro acc _; simp
  | cons i t ih =>
    intro acc hk
    have hkeys : (baseItemStep calculateProfit products sellerId customerId
        acc i).customers.map Prod.fst = acc.customers.map Prod.fst := by
      rw [baseItemStep_customers, updVal_map_fst]
    have hk' : hasKey (baseItemStep calculateProfit products sellerId customerId
        acc i).customers customerId = true := by
      rw [hasKey_congr_keys _ acc.customers customerId hkeys]
      exact hk
    simp only [List.foldl_cons]
    rw [ih _ hk', baseItemStep_customers, getVal_updVal_self, if_pos hk]

theorem sellerFold_components (calculateProfit : Item → Option Product → ℚ)
    (products : List Product) (customerId : String) :
    ∀ (items : List Item) (b : SellerAgg),
      (items.foldl (fun b i =>
          ({ revenue := b.revenue + lineRevenue i
             profit := b.profit + calculateProfit i (findProduct products i.sku)
             items := b.items ++ [i]
             customers := addSet b.customers customerId } : SellerAgg)) b).revenue =
        b.revenue + (items.map lineRevenue).sum ∧
      (items.foldl (fun b i =>
          ({ revenue := b.revenue + lineRevenue i
             profit := b.profit + calculateProfit i (findProduct products i.sku)
             items := b.items ++ [i]
             customers := addSet b.customers customerId } : SellerAgg)) b).profit =
        b.profit + (items.map (fun i => calculateProfit i (findProduct products i.sku))).sum ∧
      (items.foldl (fun b i =>
          ({ revenue := b.revenue + lineRevenue i
             profit := b.profit + calculateProfit i (findProduct products i.sku)
             items := b.items ++ [i]
             customers := addSet b.customers customerId } : SellerAgg)) b).items =
        b.items ++ items := by
  intro items
  induction items with
  | nil => intro b; simp
  | cons i t ih =>
    intro b
    simp only [List.foldl_cons, List.map_cons, List.sum_cons]
    obtain ⟨h1, h2, h3⟩ := ih
      { revenue := b.revenue + lineRevenue i
        profit := b.profit + calculateProfit i (findProduct products i.sku)
        items := b.items ++ [i]
        customers := addSet b.customers customerId }
    refine ⟨?_, ?_, ?_⟩
    · rw [h1]; ring
    · rw [h2]; ring
    · rw [h3]; simp

theorem customerFold_revenue (calculateProfit : Item → Option Product → ℚ)
    (products : List Product) (sellerId : String) :
    ∀ (items : List Item) (b : CustomerAgg),
      (items.foldl (fun b i =>
          ({ revenue := b.revenue + lineRevenue i
             profit := b.profit + calculateProfit i (findProduct products i.sku)
             sellers := addSet b.sellers sellerId } : CustomerAgg)) b).revenue =
        b.revenue + (items.map lineRevenue).sum := by
  intro items
  induction items with
  | nil => intro b; simp
  | cons i t ih =>
    intro b
    simp only [List.foldl_cons, List.map_cons, List.sum_cons]
    rw [ih]
    simp only []
    ring

theorem baseItemStep_prodSum (calculateProfit : Item → Option Product → ℚ)
    (products : List Product) (sellerId customerId : String) (acc : Stats) (item : Item) :
    productsRevenueSum (baseItemStep calculateProfit products sellerId customerId acc item) =
      productsRevenueSum acc + lineRevenue item := by
  have hprod : (baseItemStep calculateProfit products sellerId customerId acc item).products =
      updVal (if hasKey acc.products item.sku then acc.products
          else acc.products ++ [(item.sku, ⟨0, 0⟩)]) item.sku (fun b =>
        { quantity := b.quantity + item.quantity
          revenue := b.revenue + lineRevenue item }) := rfl
  unfold productsRevenueSum
  rw [hprod]
  by_cases h : hasKey acc.products item.sku
  · rw [if_pos h]
    refine updVal_sum (fun b => b.revenue) _ (lineRevenue item) ?_ acc.products item.sku h
    intro v
    rfl
  · rw [if_neg h]
    have hsum := updVal_sum (β := ProductAgg) (fun b => b.revenue)
      (fun b => { quantity := b.quantity + item.quantity
                  revenue := b.revenue + lineRevenue item })
      (lineRevenue item) (fun v => rfl) (acc.products ++ [(item.sku, ⟨0, 0⟩)]) item.sku
      (hasKey_append_self acc.products item.sku ⟨0, 0⟩)
    rw [hsum]
    simp

theorem baseItems_prodSum (calculateProfit : Item → Option Product → ℚ)
    (products : List Product) (sellerId customerId : String) :
    ∀ (items : List Item) (acc : Stats),
      productsRevenueSum
          (items.foldl (baseItemStep calculateProfit products sellerId customerId) acc) =
        productsRevenueSum acc + (items.map lineRevenue).sum := by
  intro items
  induction items with
  | nil => intro acc; simp
  | cons i t ih =>
    intro acc
    simp only [List.foldl_cons, List.map_cons, List.sum_cons]
    rw [ih, baseItemStep_prodSum]
    ring

theorem baseMetrics_single (calculateProfit : Item → Option Product → ℚ)
    (products : List Product) (r : PurchaseRecord) :
    baseMetrics [r] calculateProfit products =
      r.items.foldl (baseItemStep calculateProfit products r.seller_id r.customer_id)
        ⟨[(r.seller_id, ⟨0, 0, [], []⟩)], [(r.customer_id, ⟨0, 0, []⟩)], []⟩ := rfl

/-- C1 (amended).  An item whose sku has no catalog match is NOT skipped
by `baseMetrics`: over a record all of whose items are unknown, the
record's full line revenue still accumulates into the seller, customer
and product aggregates, the profit function IS applied to each such item
(with no product), and the items are appended to the seller bucket. -/
theorem baseMetrics_unknown_sku_accumulates (calculateProfit : Item → Option Product → ℚ)
    (products : List Product) (r : PurchaseRecord)
    (h : ∀ i ∈ r.items, findProduct products i.sku = none) :
    (getVal (baseMetrics [r] calculateProfit products).sellers r.seller_id
        ⟨0, 0, [], []⟩).revenue = (r.items.map lineRevenue).sum ∧
    (getVal (baseMetrics [r] calculateProfit products).sellers r.seller_id
        ⟨0, 0, [], []⟩).profit = (r.items.map (fun i => calculateProfit i none)).sum ∧
    (getVal (baseMetrics [r] calculateProfit products).sellers r.seller_id
        ⟨0, 0, [], []⟩).items = r.items ∧
    (getVal (baseMetrics [r] calculateProfit products).customers r.customer_id
        ⟨0, 0, []⟩).revenue = (r.items.map lineRevenue).sum ∧
    productsRevenueSum (baseMetrics [r] calculateProfit products) =
      (r.items.map lineRevenue).sum := by
  rw [baseMetrics_single]
  have hks : hasKey ([(r.seller_id, (⟨0, 0, [], []⟩ : SellerAgg))]) r.seller_id = true := by
    simp
  have hkc : hasKey ([(r.customer_id, (⟨0, 0, []⟩ : CustomerAgg))]) r.customer_id = true := by
    simp
  have hseller := baseItems_seller_track calculateProfit products r.seller_id r.customer_id
    ⟨0, 0, [], []⟩ r.items
    ⟨[(r.seller_id, ⟨0, 0, [], []⟩)], [(r.customer_id, ⟨0, 0, []⟩)], []⟩ hks
  have hcustomer := baseItems_customer_track calculateProfit products r.seller_id r.customer_id
    ⟨0, 0, []⟩ r.items
    ⟨[(r.seller_id, ⟨0, 0, [], []⟩)], [(r.customer_id, ⟨0, 0, []⟩)], []⟩ hkc
  have hgs : getVal ([(r.seller_id, (⟨0, 0, [], []⟩ : SellerAgg))]) r.seller_id
      ⟨0, 0, [], []⟩ = ⟨0, 0, [], []⟩ := by
    simp [getVal_cons]
  have hgc : getVal ([(r.customer_id, (⟨0, 0, []⟩ : CustomerAgg))]) r.customer_id
      ⟨0, 0, []⟩ = ⟨0, 0, []⟩ := by
    simp [getVal_cons]
  obtain ⟨hrev, hprof, hitems⟩ := sellerFold_components calculateProfit products
    r.customer_id r.items (⟨0, 0, [], []⟩ : SellerAgg)
  have hmap : r.items.map (fun i => calculateProfit i (findProduct products i.sku)) =
      r.items.map (fun i => calculateProfit i none) :=
    List.map_congr_left (fun i hi => by rw [h i hi])
  refine ⟨?_, ?_, ?_, ?_, ?_⟩
  · rw [hseller, hgs, hrev]
    ring
  · rw [hseller, hgs, hprof, hmap]
    ring
  · rw [hseller, hgs, hitems]
    simp
  · rw [hcustomer, hgc, customerFold_revenue]
    ring
  · rw [baseItems_prodSum]
    simp [productsRevenueSum]

/-- A concrete item whose sku is absent from the concrete catalog. -/
def itemZ : Item := { sku := "zzz", sale_price := 10, quantity := 2, discount := 0 }

/-- A concrete record carrying only the unknown-sku item. -/
def recordZ : PurchaseRecord :=
  { seller_id := "s1", customer_id := "c1", date := "2024-01-05", total_amount := 20
    items := [itemZ] }

/-- A profit function that witnesses being called with `undefined`:
it returns 7 exactly when the product is missing. -/
def probeProfit : Item → Option Product → ℚ := fun _ product =>
  match product with
  | none => 7
  | some _ => 0

/-- A concrete one-product catalog not containing `itemZ`'s sku. -/
def catalogP1 : List Product := [{ sku := "p1", purchase_price := 2 }]

/-- Counterexample to C1 as stated: the unknown-sku item contributes its
line revenue (20) to the seller aggregate and the profit function IS
applied to it (yielding 7), instead of being skipped silently. -/
theorem baseMetrics_unknown_sku_not_skipped_cex :
    findProduct catalogP1 itemZ.sku = none ∧
    (getVal (baseMetrics [recordZ] probeProfit catalogP1).sellers recordZ.seller_id
      ⟨0, 0, [], []⟩).revenue = 20 ∧
    (getVal (baseMetrics [recordZ] probeProfit catalogP1).sellers recordZ.seller_id
      ⟨0, 0, [], []⟩).profit = 7 ∧
    (20 : ℚ) ≠ 0 := by
  refine ⟨by decide, ?_, ?_, by norm_num⟩ <;>
    (simp +decide [baseMetrics, baseRecordStep, baseItemStep, ensureSeller, ensureCustomer,
      findProduct, getVal, updVal, hasKey, addSet, lineRevenue, itemZ, recordZ, probeProfit,
      catalogP1]
     try norm_num)

/-- Witness for the amended C1 at a concrete input. -/
theorem baseMetrics_unknown_sku_accumulates_witness :
    (∀ i ∈ recordZ.items, findProduct catalogP1 i.sku = none) ∧
    (getVal (baseMetrics [recordZ] probeProfit catalogP1).sellers recordZ.seller_id
      ⟨0, 0, [], []⟩).revenue = (recordZ.items.map lineRevenue).sum :=
  ⟨by decide,
   (baseMetrics_unknown_sku_accumulates probeProfit catalogP1 recordZ (by decide)).1⟩

/-! ## Stable sorting

`Array.prototype.sort(cmp)` is stable (ECMAScript 2019+); modelled as a
stable insertion sort.  `lt y x` means the comparator places `y`
strictly before `x`. -/

def insertSorted {α : Type} (lt : α → α → Bool) (x : α) : List α → List α
  | [] => [x]
  | y :: t => if lt y x then y :: insertSorted lt x t else x :: y :: t

def sortBy {α : Type} (lt : α → α → Bool) (l : List α) : List α :=
  l.foldr (insertSorted lt) []

/-! ## The special bonus rules (§4.4)

Each source rule dereferences the result of a `reduce` seeded with
`null`; a rule whose dereference would throw is modelled as `none`. -/

/-- One step of the inner `records.reduce` in `bonusLargestSingleSale`:
`record.total_amount > (recordMax?.total_amount || 0) ? record : recordMax`. -/
def saleBetter (recordMax : Option PurchaseRecord) (record : PurchaseRecord) :
    Option PurchaseRecord :=
  if record.total_amount > ((recordMax.map (fun r => r.total_amount)).getD 0) then some record
  else recordMax

/-- One step of the outer reduce of `bonusLargestSingleSale`: compute
the seller group's champion, then
`largestRecord?.total_amount > (max?.total_amount || 0) ? largestRecord : max`
(false when `largestRecord` is `null`, since `undefined > x` is false). -/
def largestSaleStep (max : Option PurchaseRecord) (e : String × List PurchaseRecord) :
    Option PurchaseRecord :=
  match e.2.foldl saleBetter none with
  | none => max
  | some r => saleBetter max r

/-- `bonusLargestSingleSale({ recordsBySeller })` from `src/main.js`. -/
def bonusLargestSingleSale (recordsBySeller : List (String × List PurchaseRecord)) :
    Option BonusResult :=
  match recordsBySeller.foldl largestSaleStep none with
  | none => none
  | some r =>
    some { category := "Largest Single Sale", seller_id := some r.seller_id
           bonus := round2 (r.total_amount * (1 / 10)) }

/-- One step of the first reduce of `bonusBestCustomer`:
`data.revenue > (max?.revenue || 0) ? { id, ...data } : max`. -/
def bestCustomerStep (max : Option (String × CustomerAgg)) (e : String × CustomerAgg) :
    Option (String × CustomerAgg) :=
  if e.2.revenue > ((max.map (fun b => b.2.revenue)).getD 0) then some e else max

/-- The first reduce of `bonusBestCustomer`. -/
def bestCustomerOf (stats : Stats) : Option (String × CustomerAgg) :=
  stats.customers.foldl bestCustomerStep none

/-- One step of the second reduce of `bonusBestCustomer`:
`stats.sellers[sellerId]?.revenue || 0` against `topSeller?.revenue || 0`. -/
def topSellerStep (stats : Stats) (topSeller : Option (String × ℚ)) (sellerId : String) :
    Option (String × ℚ) :=
  let revenue := ((stats.sellers.find? (fun e => e.1 = sellerId)).map
    (fun e => e.2.revenue)).getD 0
  if revenue > ((topSeller.map Prod.snd).getD 0) then some (sellerId, revenue) else topSeller

/-- `bonusBestCustomer({ stats })` from `src/main.js`. -/
def bonusBestCustomer (stats : Stats) : Option BonusResult :=
  match bestCustomerOf stats with
  | none => none
  | some bc =>
    match bc.2.sellers.foldl (topSellerStep stats) none with
    | none => none
    | some ts =>
      some { category := "Best Customer Seller", seller_id := some ts.1
             bonus := round2 (bc.2.revenue * (5 / 100)) }

/-- One step of the reduce of `bonusCustomerRetention`.
`Math.max()` of an empty spread is `-Infinity`, which never exceeds the
accumulator; this is the `none` branch of `List.max?`. -/
def retentionStep (stats : Stats) (best : Option (String × ℚ)) (e : String × SellerAgg) :
    Option (String × ℚ) :=
  let customerCounts := e.2.customers.map (fun customerId =>
    ((stats.customers.find? (fun c => c.1 = customerId)).map
      (fun c => c.2.revenue)).getD 0)
  match customerCounts.max? with
  | none => best
  | some m => if m > ((best.map Prod.snd).getD 0) then some (e.1, m) else best

/-- `bonusCustomerRetention({ stats })` from `src/main.js`. -/
def bonusCustomerRetention (stats : Stats) : Option BonusResult :=
  match stats.sellers.foldl (retentionStep stats) none with
  | none => none
  | some br =>
    some { category := "Best Customer Retention", seller_id := some br.1, bonus := 1000 }

/-- The per-seller metric of `bonusHighestAverageProfit`:
`data.profit / (data.items.length || 1)`. -/
def avgProfitOf (b : SellerAgg) : ℚ :=
  b.profit / (if b.items.length = 0 then 1 else (b.items.length : ℚ))

/-- One step of the reduce of `bonusHighestAverageProfit`. -/
def hapStep (max : Option (String × ℚ)) (e : String × SellerAgg) : Option (String × ℚ) :=
  if avgProfitOf e.2 > ((max.map Prod.snd).getD 0) then some (e.1, avgProfitOf e.2) else max

/-- `bonusHighestAverageProfit({ stats })` from `src/main.js`. -/
def bonusHighestAverageProfit (stats : Stats) : Option BonusResult :=
  match stats.sellers.foldl hapStep none with
  | none => none
  | some bs =>
    some { category := "Highest Average Profit", seller_id := some bs.1
           bonus := round2 (bs.2 * (1 / 10)) }

/-- `record.date.slice(0, 7)`: the `YYYY-MM` month key. -/
def monthKey (record : PurchaseRecord) : String := record.date.take 7

/-- The per-seller monthly average-profit sequence of `bonusStableGrowth`:
group by month, sort months chronologically (for ISO `YYYY-MM` keys the
comparator `new Date(a) - new Date(b)` orders exactly like the string
order), and average the per-item profits of each month. -/
def monthlyAverages (records : List PurchaseRecord)
    (calculateProfit : Item → Option Product → ℚ) (products : List Product) : List ℚ :=
  (sortBy (fun a b => decide (a.1 < b.1)) (groupBy records monthKey)).map
    (fun e => calculateAverage (e.2.flatMap (fun record =>
      record.items.map (fun item => calculateProfit item (findProduct products item.sku)))))

/-- One step of the reduce of `bonusStableGrowth`: a seller qualifies
only when its monthly average-profit sequence is both stable and
increasing under tolerance `0.05`. -/
def stableGrowthStep (calculateProfit : Item → Option Product → ℚ) (products : List Product)
    (best : Option (String × ℚ)) (e : String × List PurchaseRecord) : Option (String × ℚ) :=
  let averages := monthlyAverages e.2 calculateProfit products
  let t := analyzeSequence averages (1 / 20)
  if t.isStable && t.isIncreasing then
    let avgProfit := calculateAverage averages
    if avgProfit > ((best.map Prod.snd).getD 0) then some (e.1, avgProfit) else best
  else best

/-- `bonusStableGrowth({ recordsBySeller, calculateProfit, products })`
from `src/main.js`.  This rule handles the `null` accumulator itself
(`bestSeller?.sellerId`, ternary on `bestSeller`), so it is total. -/
def bonusStableGrowth (recordsBySeller : List (String × List PurchaseRecord))
    (calculateProfit : Item → Option Product → ℚ) (products : List Product) : BonusResult :=
  let bestSeller := recordsBySeller.foldl (stableGrowthStep calculateProfit products) none
  { category := "Stable Growth"
    seller_id := bestSeller.map Prod.fst
    bonus := round2 ((bestSeller.map (fun b => b.2 * (15 / 100))).getD 0) }

/-! ### Generic lemmas about `null`-seeded best-so-far reduces -/

theorem foldl_none_of_step_none {α β : Type} (step : Option β → α → Option β) :
    ∀ (l : List α), (∀ x ∈ l, step none x = none) → l.foldl step none = none := by
  intro l
  induction l with
  | nil => intro _; rfl
  | cons y t ih =>
    intro h
    simp only [List.foldl_cons]
    rw [h y (by simp)]
    exact ih (fun x hx => h x (List.mem_cons_of_mem y hx))

theorem foldl_some_stays {α β : Type} (step : Option β → α → Option β)
    (hkeep : ∀ (b : β) (x : α), ∃ c, step (some b) x = some c) :
    ∀ (l : List α) (b : β), ∃ c, l.foldl step (some b) = some c := by
  intro l
  induction l with
  | nil => intro b; exact ⟨b, rfl⟩
  | cons y t ih =>
    intro b
    obtain ⟨c, hc⟩ := hkeep b y
    simp only [List.foldl_cons]
    rw [hc]
    exact ih c

theorem foldl_eventually_some {α β : Type} (step : Option β → α → Option β)
    (hkeep : ∀ (b : β) (x : α), ∃ c, step (some b) x = some c) :
    ∀ (l : List α), (∃ x ∈ l, ∃ c, step none x = some c) →
      ∃ c, l.foldl step none = some c := by
  intro l
  induction l with
  | nil => rintro ⟨x, hx, _⟩; simp at hx
  | cons y t ih =>
    rintro ⟨x, hx, c, hc⟩
    simp only [List.foldl_cons]
    cases hstep : step none y with
    | some d =>
      exact foldl_some_stays step hkeep t d
    | none =>
      apply ih
      rcases List.mem_cons.1 hx with h | h
      · subst h
        rw [hstep] at hc
        exact absurd hc (by simp)
      · exact ⟨x, h, c, hc⟩

/-! ### C9: `bonusStableGrowth` with no qualifying seller -/

/-- C9.  When no seller's chronologically-sorted monthly average-profit
sequence is both stable and increasing under tolerance `0.05`,
`bonusStableGrowth` terminates normally and returns category
"Stable Growth" with an undefined (`none`) `seller_id` and bonus `0`. -/
theorem bonusStableGrowth_no_qualifier
    (recordsBySeller : List (String × List PurchaseRecord))
    (calculateProfit : Item → Option Product → ℚ) (products : List Product)
    (h : ∀ e ∈ recordsBySeller,
      ((analyzeSequence (monthlyAverages e.2 calculateProfit products) (1 / 20)).isStable &&
       (analyzeSequence (monthlyAverages e.2 calculateProfit products) (1 / 20)).isIncreasing)
        = false) :
    bonusStableGrowth recordsBySeller calculateProfit products =
      { category := "Stable Growth", seller_id := none, bonus := 0 } := by
  unfold bonusStableGrowth
  rw [foldl_none_of_step_none (stableGrowthStep calculateProfit products) recordsBySeller
    (fun e he => by
      simp only [stableGrowthStep]
      rw [h e he]
      simp)]
  have hr : round2 0 = 0 := by norm_num [round2]
  simp [hr]

/-- A concrete single-record context for the C9 witness. -/
def recG1 : PurchaseRecord :=
  { seller_id := "s1", customer_id := "c1", date := "2024-01-10", total_amount := 5
    items := [itemZ] }

/-- Records of one seller, all falling in one month. -/
def groupsG : List (String × List PurchaseRecord) := [(recG1.seller_id, [recG1])]

/-- Witness for C9: a seller whose records all fall in a single month has
a length-1 monthly sequence, hence `isIncreasing` is false and nobody
qualifies. -/
theorem bonusStableGrowth_no_qualifier_witness :
    bonusStableGrowth groupsG probeProfit catalogP1 =
      { category := "Stable Growth", seller_id := none, bonus := 0 } :=
  bonusStableGrowth_no_qualifier groupsG probeProfit catalogP1 (by
    intro e he
    simp only [groupsG, List.mem_singleton] at he
    subst he
    simp [monthlyAverages, groupBy, bucketAdd, hasKey, updVal, sortBy, insertSorted,
      recG1, analyzeSequence])

/-! ### C10: the `null`-seeded extremum rules -/

/-- `stats.sellers[sellerId]?.revenue || 0`. -/
def sellerRevenueLookup (stats : Stats) (sellerId : String) : ℚ :=
  ((stats.sellers.find? (fun e => e.1 = sellerId)).map (fun e => e.2.revenue)).getD 0

/-- `stats.customers[customerId]?.revenue || 0`. -/
def customerRevenueLookup (stats : Stats) (customerId : String) : ℚ :=
  ((stats.customers.find? (fun c => c.1 = customerId)).map (fun c => c.2.revenue)).getD 0

theorem foldl_saleBetter_pos :
    ∀ (l : List PurchaseRecord) (m : Option PurchaseRecord),
      (m = none ∨ ∃ y, m = some y ∧ 0 < y.total_amount) →
      (l.foldl saleBetter m = none ∨
        ∃ y, l.foldl saleBetter m = some y ∧ 0 < y.total_amount) := by
  intro l
  induction l with
  | nil => intro m hm; simpa using hm
  | cons x t ih =>
    intro m hm
    simp only [List.foldl_cons]
    apply ih
    rcases hm with hm | ⟨y, hy, hypos⟩
    · subst hm
      unfold saleBetter
      by_cases h : x.total_amount > ((Option.map (fun r => r.total_amount)
          (none : Option PurchaseRecord)).getD 0)
      · rw [if_pos h]
        right
        refine ⟨x, rfl, ?_⟩
        simpa using h
      · rw [if_neg h]
        left
        rfl
    · subst hy
      unfold saleBetter
      by_cases h : x.total_amount > ((Option.map (fun r => r.total_amount) (some y)).getD 0)
      · rw [if_pos h]
        right
        refine ⟨x, rfl, ?_⟩
        simp at h
        exact lt_trans hypos h
      · rw [if_neg h]
        right
        exact ⟨y, rfl, hypos⟩

theorem saleBetter_fold_pos (l : List PurchaseRecord) (r : PurchaseRecord)
    (hfold : l.foldl saleBetter none = some r) : 0 < r.total_amount := by
  rcases foldl_saleBetter_pos l none (Or.inl rfl) with h | ⟨y, hy, hypos⟩
  · rw [hfold] at h
    exact absurd h (by simp)
  · rw [hfold] at hy
    injection hy with h2
    rw [h2]
    exact hypos

/-- C10 (amended).  Each `null`-seeded rule crashes (modelled `none`)
when no candidate metric is strictly positive; a strictly positive
candidate metric guarantees a result for `bonusCustomerRetention`,
`bonusLargestSingleSale` and `bonusHighestAverageProfit`, but NOT for
`bonusBestCustomer`, whose second reduce needs in addition a seller of
the winning customer with strictly positive aggregated revenue. -/
theorem bonusRules_null_seed_spec (stats : Stats)
    (recordsBySeller : List (String × List PurchaseRecord)) :
    ((∀ e ∈ stats.customers, e.2.revenue ≤ 0) → bonusBestCustomer stats = none) ∧
    ((∀ e ∈ stats.sellers, ∀ cid ∈ e.2.customers, customerRevenueLookup stats cid ≤ 0) →
      bonusCustomerRetention stats = none) ∧
    ((∀ e ∈ recordsBySeller, ∀ r ∈ e.2, r.total_amount ≤ 0) →
      bonusLargestSingleSale recordsBySeller = none) ∧
    ((∀ e ∈ stats.sellers, avgProfitOf e.2 ≤ 0) → bonusHighestAverageProfit stats = none) ∧
    ((∃ e ∈ stats.customers, 0 < e.2.revenue) →
      (∀ bc, bestCustomerOf stats = some bc →
        ∃ sid ∈ bc.2.sellers, 0 < sellerRevenueLookup stats sid) →
      ∃ r, bonusBestCustomer stats = some r) ∧
    ((∃ e ∈ stats.sellers, ∃ cid ∈ e.2.customers, 0 < customerRevenueLookup stats cid) →
      ∃ r, bonusCustomerRetention stats = some r) ∧
    ((∃ e ∈ recordsBySeller, ∃ r ∈ e.2, 0 < r.total_amount) →
      ∃ r, bonusLargestSingleSale recordsBySeller = some r) ∧
    ((∃ e ∈ stats.sellers, 0 < avgProfitOf e.2) →
      ∃ r, bonusHighestAverageProfit stats = some r) := by
  refine ⟨?_, ?_, ?_, ?_, ?_, ?_, ?_, ?_⟩
  · -- (1a) bonusBestCustomer: all customer revenues ≤ 0
    intro h
    have hb : bestCustomerOf stats = none := by
      unfold bestCustomerOf
      apply foldl_none_of_step_none
      intro e he
      unfold bestCustomerStep
      rw [if_neg (by simpa using not_lt.2 (h e he))]
    unfold bonusBestCustomer
    rw [hb]
  · -- (2a) bonusCustomerRetention: every seller's best customer revenue ≤ 0
    intro h
    simp only [customerRevenueLookup] at h
    have hb : stats.sellers.foldl (retentionStep stats) none = none := by
      apply foldl_none_of_step_none
      intro e he
      simp only [retentionStep]
      cases hmax : (e.2.customers.map (fun customerId =>
          ((stats.customers.find? (fun c => c.1 = customerId)).map
            (fun c => c.2.revenue)).getD 0)).max? with
      | none => rfl
      | some m =>
        have hmem := List.max?_mem (fun a b => max_choice a b) hmax
        simp only [List.mem_map] at hmem
        obtain ⟨cid, hcid, hm⟩ := hmem
        have hle : m ≤ 0 := by
          rw [← hm]
          exact h e he cid hcid
        simp only []
        rw [if_neg (by simpa using not_lt.2 hle)]
    unfold bonusCustomerRetention
    rw [hb]
  · -- (3a) bonusLargestSingleSale: all amounts ≤ 0
    intro h
    have hb : recordsBySeller.foldl largestSaleStep none = none := by
      apply foldl_none_of_step_none
      intro e he
      unfold largestSaleStep
      have hin : e.2.foldl saleBetter none = none := by
        apply foldl_none_of_step_none
        intro r hr
        unfold saleBetter
        rw [if_neg (by simpa using not_lt.2 (h e he r hr))]
      rw [hin]
    unfold bonusLargestSingleSale
    rw [hb]
  · -- (4a) bonusHighestAverageProfit: all averages ≤ 0
    intro h
    have hb : stats.sellers.foldl hapStep none = none := by
      apply foldl_none_of_step_none
      intro e he
      unfold hapStep
      rw [if_neg (by simpa using not_lt.2 (h e he))]
    unfold bonusHighestAverageProfit
    rw [hb]
  · -- (1b) bonusBestCustomer, amended sufficient condition
    intro h1 h2
    obtain ⟨e, he, hepos⟩ := h1
    obtain ⟨bc, hbc⟩ : ∃ bc, bestCustomerOf stats = some bc := by
      unfold bestCustomerOf
      apply foldl_eventually_some bestCustomerStep
      · intro b x
        unfold bestCustomerStep
        by_cases hx : x.2.revenue > ((Option.map (fun b => b.2.revenue) (some b)).getD 0)
        · exact ⟨x, by rw [if_pos hx]⟩
        · exact ⟨b, by rw [if_neg hx]⟩
      · refine ⟨e, he, e, ?_⟩
        unfold bestCustomerStep
        rw [if_pos (by simpa using hepos)]
    obtain ⟨sid, hsid, hsidpos⟩ := h2 bc hbc
    simp only [sellerRevenueLookup] at hsidpos
    obtain ⟨ts, hts⟩ : ∃ ts, bc.2.sellers.foldl (topSellerStep stats) none = some ts := by
      apply foldl_eventually_some (topSellerStep stats)
      · intro b x
        simp only [topSellerStep]
        by_cases hx : ((stats.sellers.find? (fun e => e.1 = x)).map
            (fun e => e.2.revenue)).getD 0 > ((Option.map Prod.snd (some b)).getD 0)
        · exact ⟨_, by rw [if_pos hx]⟩
        · exact ⟨b, by rw [if_neg hx]⟩
      · refine ⟨sid, hsid, (sid, ((stats.sellers.find? (fun e => e.1 = sid)).map
            (fun e => e.2.revenue)).getD 0), ?_⟩
        simp only [topSellerStep]
        rw [if_pos (by simpa using hsidpos)]
    refine ⟨{ category := "Best Customer Seller", seller_id := some ts.1
              bonus := round2 (bc.2.revenue * (5 / 100)) }, ?_⟩
    unfold bonusBestCustomer
    rw [hbc]
    simp only []
    rw [hts]
  · -- (2b) bonusCustomerRetention, positive metric suffices
    intro h
    obtain ⟨e, he, cid, hcid, hpos⟩ := h
    simp only [customerRevenueLookup] at hpos
    obtain ⟨br, hbr⟩ : ∃ br, stats.sellers.foldl (retentionStep stats) none = some br := by
      apply foldl_eventually_some (retentionStep stats)
      · intro b x
        simp only [retentionStep]
        cases hmax : (x.2.customers.map (fun customerId =>
            ((stats.customers.find? (fun c => c.1 = customerId)).map
              (fun c => c.2.revenue)).getD 0)).max? with
        | none => exact ⟨b, rfl⟩
        | some m =>
          simp only []
          by_cases hx : m > ((Option.map Prod.snd (some b)).getD 0)
          · exact ⟨_, by rw [if_pos hx]⟩
          · exact ⟨b, by rw [if_neg hx]⟩
      · refine ⟨e, he, ?_⟩
        simp only [retentionStep]
        cases hmax : (e.2.customers.map (fun customerId =>
            ((stats.customers.find? (fun c => c.1 = customerId)).map
              (fun c => c.2.revenue)).getD 0)).max? with
        | none =>
          have : e.2.customers.map (fun customerId =>
              ((stats.customers.find? (fun c => c.1 = customerId)).map
                (fun c => c.2.revenue)).getD 0) = [] := List.max?_eq_none_iff.1 hmax
          rw [List.map_eq_nil_iff] at this
          rw [this] at hcid
          exact absurd hcid (List.not_mem_nil cid)
        | some m =>
          have hle := (List.max?_le_iff (fun a b c => max_le_iff) hmax).1 (le_refl m)
          have hcm : ((stats.customers.find? (fun c => c.1 = cid)).map
              (fun c => c.2.revenue)).getD 0 ≤ m :=
            hle _ (List.mem_map_of_mem _ hcid)
          have hmpos : 0 < m := lt_of_lt_of_le hpos hcm
          refine ⟨(e.1, m), ?_⟩
          simp only []
          rw [if_pos (by simpa using hmpos)]
    refine ⟨{ category := "Best Customer Retention", seller_id := some br.1
              bonus := 1000 }, ?_⟩
    unfold bonusCustomerRetention
    rw [hbr]
  · -- (3b) bonusLargestSingleSale, positive metric suffices
    intro h
    obtain ⟨e, he, r, hr, hpos⟩ := h
    obtain ⟨w, hw⟩ : ∃ w, recordsBySeller.foldl largestSaleStep none = some w := by
      apply foldl_eventually_some largestSaleStep
      · intro b x
        unfold largestSaleStep
        cases hin : x.2.foldl saleBetter none with
        | none => exact ⟨b, rfl⟩
        | some rr =>
          simp only []
          unfold saleBetter
          by_cases hc : rr.total_amount > ((Option.map (fun r => r.total_amount)
              (some b)).getD 0)
          · exact ⟨rr, by rw [if_pos hc]⟩
          · exact ⟨b, by rw [if_neg hc]⟩
      · refine ⟨e, he, ?_⟩
        obtain ⟨rr, hrr⟩ : ∃ rr, e.2.foldl saleBetter none = some rr := by
          apply foldl_eventually_some saleBetter
          · intro b x
            unfold saleBetter
            by_cases hc : x.total_amount > ((Option.map (fun r => r.total_amount)
                (some b)).getD 0)
            · exact ⟨x, by rw [if_pos hc]⟩
            · exact ⟨b, by rw [if_neg hc]⟩
          · refine ⟨r, hr, r, ?_⟩
            unfold saleBetter
            rw [if_pos (by simpa using hpos)]
        have hrrpos : 0 < rr.total_amount := saleBetter_fold_pos e.2 rr hrr
        refine ⟨rr, ?_⟩
        unfold largestSaleStep
        rw [hrr]
        simp only []
        unfold saleBetter
        rw [if_pos (by simpa using hrrpos)]
    refine ⟨{ category := "Largest Single Sale", seller_id := some w.seller_id
              bonus := round2 (w.total_amount * (1 / 10)) }, ?_⟩
    unfold bonusLargestSingleSale
    rw [hw]
  · -- (4b) bonusHighestAverageProfit, positive metric suffices
    intro h
    obtain ⟨e, he, hepos⟩ := h
    obtain ⟨bs, hbs⟩ : ∃ bs, stats.sellers.foldl hapStep none = some bs := by
      apply foldl_eventually_some hapStep
      · intro b x
        unfold hapStep
        by_cases hx : avgProfitOf x.2 > ((Option.map Prod.snd (some b)).getD 0)
        · exact ⟨_, by rw [if_pos hx]⟩
        · exact ⟨b, by rw [if_neg hx]⟩
      · refine ⟨e, he, (e.1, avgProfitOf e.2), ?_⟩
        unfold hapStep
        rw [if_pos (by simpa using hepos)]
    refine ⟨{ category := "Highest Average Profit", seller_id := some bs.1
              bonus := round2 (bs.2 * (1 / 10)) }, ?_⟩
    unfold bonusHighestAverageProfit
    rw [hbs]

/-- Stats where one customer has strictly positive revenue (5) but that
customer's only seller has zero aggregated revenue. -/
def cexStats : Stats :=
  { sellers := [("s1", { revenue := 0, profit := 0, items := [], customers := ["c1"] })]
    customers := [("c1", { revenue := 5, profit := 0, sellers := ["s1"] })]
    products := [] }

/-- Counterexample to C10 as stated: a strictly positive candidate
metric (customer revenue 5 > 0) does NOT make the null branch of
`bonusBestCustomer` unreachable — its second `null`-seeded reduce still
dereferences `null`, because the winning customer's only seller has
aggregated revenue 0. -/
theorem bonusBestCustomer_positive_crash_cex :
    (∃ e ∈ cexStats.customers, 0 < e.2.revenue) ∧ bonusBestCustomer cexStats = none := by
  decide

/-- Stats with every metric 0 (for the crash half of C10). -/
def zeroStats : Stats :=
  { sellers := [("s1", { revenue := 0, profit := 0, items := [], customers := ["c1"] })]
    customers := [("c1", { revenue := 0, profit := 0, sellers := ["s1"] })]
    products := [] }

/-- Stats with strictly positive metrics (for the success half of C10). -/
def posStats : Stats :=
  { sellers := [("s1", { revenue := 9, profit := 4, items := [itemZ], customers := ["c1"] })]
    customers := [("c1", { revenue := 9, profit := 4, sellers := ["s1"] })]
    products := [] }

/-- Witness for the amended C10 at concrete inputs: every rule crashes
on all-zero metrics, and every rule returns a result under the amended
positivity preconditions. -/
theorem bonusRules_null_seed_spec_witness :
    bonusBestCustomer zeroStats = none ∧
    bonusCustomerRetention zeroStats = none ∧
    bonusLargestSingleSale ([] : List (String × List PurchaseRecord)) = none ∧
    bonusHighestAverageProfit zeroStats = none ∧
    (∃ r, bonusBestCustomer posStats = some r) ∧
    (∃ r, bonusCustomerRetention posStats = some r) ∧
    (∃ r, bonusLargestSingleSale groupsG = some r) ∧
    (∃ r, bonusHighestAverageProfit posStats = some r) := by
  obtain ⟨h1a, h2a, h3a, h4a, _, _, _, _⟩ :=
    bonusRules_null_seed_spec zeroStats ([] : List (String × List PurchaseRecord))
  obtain ⟨_, _, _, _, p1b, p2b, p3b, p4b⟩ := bonusRules_null_seed_spec posStats groupsG
  refine ⟨h1a ?_, h2a ?_, h3a ?_, h4a ?_, p1b ?_ ?_, p2b ?_, p3b ?_, p4b ?_⟩
  · decide
  · decide
  · decide
  · intro e he
    simp only [zeroStats, List.mem_singleton] at he
    subst he
    norm_num [avgProfitOf]
  · decide
  · intro bc hbc
    have he : bestCustomerOf posStats =
        some ("c1", { revenue := 9, profit := 4, sellers := ["s1"] }) := by decide
    rw [he] at hbc
    injection hbc with h2
    rw [← h2]
    exact ⟨"s1", by decide, by decide⟩
  · decide
  · decide
  · exact ⟨("s1", { revenue := 9, profit := 4, items := [itemZ], customers := ["c1"] }),
      by decide, by norm_num [avgProfitOf]⟩

/-! ### C7: `bonusLargestSingleSale` vs the direct global maximum -/

/-- Flatten the grouped records (concatenation of the buckets in their
`Object.entries` enumeration order). -/
def flattenGroups {α : Type} (groups : List (String × List α)) : List α :=
  groups.flatMap (fun e => e.2)

/-- Modelled from the spec's words, as the reference side of the
refinement claim: a direct global scan of a record list — the winner is
the first-encountered record with maximal `total_amount` (ties broken by
strict greater-than, first seen wins), and the bonus is 10% of that
amount rounded to 2 decimals. -/
def specLargestSingleSale (records : List PurchaseRecord) : Option BonusResult :=
  match records.find? (fun r => records.all (fun x => x.total_amount ≤ r.total_amount)) with
  | none => none
  | some w =>
    some { category := "Largest Single Sale", seller_id := some w.seller_id
           bonus := round2 (w.total_amount * (1 / 10)) }

theorem saleBetter_none (x : PurchaseRecord) :
    saleBetter none x = if 0 < x.total_amount then some x else none := by
  unfold saleBetter
  simp

theorem saleBetter_some (c x : PurchaseRecord) :
    saleBetter (some c) x =
      if c.total_amount < x.total_amount then some x else some c := by
  unfold saleBetter
  simp

theorem foldl_saleBetter_some_mono :
    ∀ (t : List PurchaseRecord) (c : PurchaseRecord),
      ∃ d, t.foldl saleBetter (some c) = some d ∧ c.total_amount ≤ d.total_amount := by
  intro t
  induction t with
  | nil => intro c; exact ⟨c, rfl, le_refl _⟩
  | cons a t ih =>
    intro c
    simp only [List.foldl_cons, saleBetter_some]
    by_cases h : c.total_amount < a.total_amount
    · rw [if_pos h]
      obtain ⟨d, hd, hle⟩ := ih a
      exact ⟨d, hd, le_trans (le_of_lt h) hle⟩
    · rw [if_neg h]
      exact ih c

theorem foldl_saleBetter_seed :
    ∀ (t : List PurchaseRecord) (w : PurchaseRecord), 0 < w.total_amount →
      t.foldl saleBetter (some w) =
        (match t.foldl saleBetter none with
         | none => some w
         | some r => saleBetter (some w) r) := by
  intro t
  induction t with
  | nil => intro w _; rfl
  | cons a t ih =>
    intro w hw
    simp only [List.foldl_cons]
    by_cases ha : 0 < a.total_amount
    · by_cases hwa : w.total_amount < a.total_amount
      · rw [saleBetter_some w a, if_pos hwa, saleBetter_none a, if_pos ha, ih a ha]
        cases hft : t.foldl saleBetter none with
        | none =>
          simp only []
          rw [saleBetter_some w a, if_pos hwa]
        | some r =>
          simp only []
          rw [saleBetter_some a r]
          by_cases har : a.total_amount < r.total_amount
          · rw [if_pos har]
            simp only []
            rw [saleBetter_some w r, if_pos (lt_trans hwa har)]
          · rw [if_neg har]
            simp only []
            rw [saleBetter_some w a, if_pos hwa]
      · rw [saleBetter_some w a, if_neg hwa, saleBetter_none a, if_pos ha, ih w hw, ih a ha]
        cases hft : t.foldl saleBetter none with
        | none =>
          simp only []
          rw [saleBetter_some w a, if_neg hwa]
        | some r =>
          simp only []
          rw [saleBetter_some a r]
          by_cases har : a.total_amount < r.total_amount
          · rw [if_pos har]
          · rw [if_neg har]
            simp only []
            rw [saleBetter_some w a, if_neg hwa, saleBetter_some w r,
              if_neg (fun hc => hwa (lt_of_lt_of_le hc (not_lt.1 har)))]
    · have h1 : saleBetter (some w) a = some w := by
        rw [saleBetter_some w a, if_neg (fun hc => ha (lt_trans hw hc))]
      have h2 : saleBetter none a = none := by
        rw [saleBetter_none a, if_neg ha]
      rw [h1, h2, ih w hw]

theorem saleBetter_keep (b x : PurchaseRecord) : ∃ c, saleBetter (some b) x = some c := by
  rw [saleBetter_some b x]
  by_cases h : b.total_amount < x.total_amount
  · exact ⟨x, by rw [if_pos h]⟩
  · exact ⟨b, by rw [if_neg h]⟩

theorem largestSaleStep_eq_foldl (m : Option PurchaseRecord)
    (hm : m = none ∨ ∃ y, m = some y ∧ 0 < y.total_amount)
    (e : String × List PurchaseRecord) :
    largestSaleStep m e = e.2.foldl saleBetter m := by
  unfold largestSaleStep
  rcases hm with hm | ⟨y, hy, hypos⟩
  · subst hm
    cases hft : e.2.foldl saleBetter none with
    | none => rfl
    | some r =>
      simp only []
      rw [saleBetter_none r, if_pos (saleBetter_fold_pos e.2 r hft)]
  · subst hy
    rw [foldl_saleBetter_seed e.2 y hypos]

theorem outer_foldl_eq_flatten :
    ∀ (groups : List (String × List PurchaseRecord)) (m : Option PurchaseRecord),
      (m = none ∨ ∃ y, m = some y ∧ 0 < y.total_amount) →
      groups.foldl largestSaleStep m = (flattenGroups groups).foldl saleBetter m := by
  intro groups
  induction groups with
  | nil => intro m _; rfl
  | cons g gs ih =>
    intro m hm
    simp only [List.foldl_cons, flattenGroups, List.flatMap_cons, List.foldl_append]
    rw [largestSaleStep_eq_foldl m hm g]
    simp only [flattenGroups] at ih
    exact ih _ (foldl_saleBetter_pos g.2 m hm)

theorem foldl_saleBetter_none_nonpos :
    ∀ (l : List PurchaseRecord), l.foldl saleBetter none = none →
      ∀ x ∈ l, x.total_amount ≤ 0 := by
  intro l
  induction l with
  | nil => intro _ x hx; simp at hx
  | cons a t ih =>
    intro h x hx
    simp only [List.foldl_cons] at h
    by_cases ha : 0 < a.total_amount
    · rw [saleBetter_none a, if_pos ha] at h
      obtain ⟨d, hd, _⟩ := foldl_saleBetter_some_mono t a
      rw [hd] at h
      exact absurd h (by simp)
    · rw [saleBetter_none a, if_neg ha] at h
      rcases List.mem_cons.1 hx with hx | hx
      · subst hx
        exact not_lt.1 ha
      · exact ih h x hx

theorem foldl_saleBetter_max :
    ∀ (l : List PurchaseRecord) (w : PurchaseRecord),
      l.foldl saleBetter none = some w →
      (∀ x ∈ l, x.total_amount ≤ w.total_amount) ∧ w ∈ l := by
  intro l
  induction l with
  | nil => intro w h; simp at h
  | cons a t ih =>
    intro w h
    simp only [List.foldl_cons] at h
    have hwpos : 0 < w.total_amount := saleBetter_fold_pos (a :: t) w (by
      simp only [List.foldl_cons]
      exact h)
    by_cases ha : 0 < a.total_amount
    · rw [saleBetter_none a, if_pos ha, foldl_saleBetter_seed t a ha] at h
      cases hft : t.foldl saleBetter none with
      | none =>
        rw [hft] at h
        simp only [] at h
        have hwa : w = a := (Option.some.inj h).symm
        subst hwa
        refine ⟨?_, by simp⟩
        intro x hx
        rcases List.mem_cons.1 hx with hx | hx
        · subst hx; exact le_refl _
        · exact le_trans (foldl_saleBetter_none_nonpos t hft x hx) (le_of_lt ha)
      | some r =>
        rw [hft] at h
        simp only [] at h
        obtain ⟨hbt, hrt⟩ := ih r hft
        rw [saleBetter_some a r] at h
        by_cases har : a.total_amount < r.total_amount
        · rw [if_pos har] at h
          have hwr : w = r := (Option.some.inj h).symm
          subst hwr
          refine ⟨?_, List.mem_cons_of_mem a hrt⟩
          intro x hx
          rcases List.mem_cons.1 hx with hx | hx
          · subst hx; exact le_of_lt har
          · exact hbt x hx
        · rw [if_neg har] at h
          have hwa : w = a := (Option.some.inj h).symm
          subst hwa
          refine ⟨?_, by simp⟩
          intro x hx
          rcases List.mem_cons.1 hx with hx | hx
          · subst hx; exact le_refl _
          · exact le_trans (hbt x hx) (not_lt.1 har)
    · rw [saleBetter_none a, if_neg ha] at h
      obtain ⟨hbt, hrt⟩ := ih w h
      refine ⟨?_, List.mem_cons_of_mem a hrt⟩
      intro x hx
      rcases List.mem_cons.1 hx with hx | hx
      · subst hx
        exact le_trans (not_lt.1 ha) (le_of_lt hwpos)
      · exact hbt x hx

theorem foldl_saleBetter_first :
    ∀ (l : List PurchaseRecord) (w : PurchaseRecord),
      l.foldl saleBetter none = some w →
      ∃ l1 l2, l = l1 ++ w :: l2 ∧ ∀ y ∈ l1, y.total_amount < w.total_amount := by
  intro l
  induction l with
  | nil => intro w h; simp at h
  | cons a t ih =>
    intro w h
    have hwpos : 0 < w.total_amount := saleBetter_fold_pos (a :: t) w h
    simp only [List.foldl_cons] at h
    by_cases ha : 0 < a.total_amount
    · rw [saleBetter_none a, if_pos ha, foldl_saleBetter_seed t a ha] at h
      cases hft : t.foldl saleBetter none with
      | none =>
        rw [hft] at h
        simp only [] at h
        have hwa : w = a := (Option.some.inj h).symm
        subst hwa
        exact ⟨[], t, rfl, by simp⟩
      | some r =>
        rw [hft] at h
        simp only [] at h
        rw [saleBetter_some a r] at h
        by_cases har : a.total_amount < r.total_amount
        · rw [if_pos har] at h
          have hwr : w = r := (Option.some.inj h).symm
          subst hwr
          obtain ⟨t1, t2, hdec, ht1⟩ := ih w hft
          refine ⟨a :: t1, t2, by rw [hdec, List.cons_append], ?_⟩
          intro y hy
          rcases List.mem_cons.1 hy with hy | hy
          · subst hy; exact har
          · exact ht1 y hy
        · rw [if_neg har] at h
          have hwa : w = a := (Option.some.inj h).symm
          subst hwa
          exact ⟨[], t, rfl, by simp⟩
    · rw [saleBetter_none a, if_neg ha] at h
      obtain ⟨t1, t2, hdec, ht1⟩ := ih w h
      refine ⟨a :: t1, t2, by rw [hdec, List.cons_append], ?_⟩
      intro y hy
      rcases List.mem_cons.1 hy with hy | hy
      · subst hy
        exact lt_of_le_of_lt (not_lt.1 ha) hwpos
      · exact ht1 y hy

theorem find?_append_first {α : Type} (w : α) (p : α → Bool) :
    ∀ (l1 : List α) (l2 : List α), p w = true → (∀ y ∈ l1, p y = false) →
      (l1 ++ w :: l2).find? p = some w := by
  intro l1
  induction l1 with
  | nil =>
    intro l2 hw _
    simp [List.find?_cons_of_pos, hw]
  | cons a t ih =>
    intro l2 hw h1
    rw [List.cons_append, List.find?_cons_of_neg _ (by simp [h1 a (by simp)])]
    exact ih l2 hw (fun y hy => h1 y (List.mem_cons_of_mem a hy))

theorem mem_flattenGroups_bucketAdd {α : Type} (k : String) (y x : α) :
    ∀ (acc : List (String × List α)),
      (x ∈ flattenGroups (bucketAdd acc k y) ↔ x ∈ flattenGroups acc ∨ x = y) := by
  intro acc
  induction acc with
  | nil =>
    simp [bucketAdd, flattenGroups]
  | cons e t ih =>
    obtain ⟨ke, v⟩ := e
    by_cases h1 : ke = k
    · subst h1
      have hk : hasKey ((ke, v) :: t) ke = true := by simp
      rw [bucketAdd, if_pos hk]
      simp only [updVal, eq_self_iff_true, if_true]
      clear ih
      simp only [flattenGroups, List.flatMap_cons, List.mem_append, List.mem_singleton]
      tauto
    · rw [bucketAdd_cons_ne ke v t k y h1]
      simp only [flattenGroups, List.flatMap_cons, List.mem_append] at ih ⊢
      rw [ih]
      tauto

theorem mem_flattenGroups_groupBy {α : Type} (l : List α) (f : α → String) (x : α) :
    x ∈ flattenGroups (groupBy l f) ↔ x ∈ l := by
  have aux : ∀ (ll : List α) (acc : List (String × List α)),
      (x ∈ flattenGroups (ll.foldl (fun a i => bucketAdd a (f i) i) acc) ↔
        x ∈ flattenGroups acc ∨ x ∈ ll) := by
    intro ll
    induction ll with
    | nil => intro acc; simp
    | cons a t ih =>
      intro acc
      simp only [List.foldl_cons]
      rw [ih, mem_flattenGroups_bucketAdd]
      simp only [List.mem_cons]
      tauto
  rw [groupBy, aux l []]
  simp [flattenGroups]

theorem foldl_saleBetter_eq_find (l : List PurchaseRecord)
    (h : ∃ r ∈ l, 0 < r.total_amount) :
    l.foldl saleBetter none =
      l.find? (fun r => l.all (fun x => x.total_amount ≤ r.total_amount)) := by
  obtain ⟨w, hw⟩ : ∃ w, l.foldl saleBetter none = some w := by
    apply foldl_eventually_some saleBetter saleBetter_keep
    obtain ⟨r, hr, hpos⟩ := h
    exact ⟨r, hr, r, by rw [saleBetter_none r, if_pos hpos]⟩
  obtain ⟨hbound, hmem⟩ := foldl_saleBetter_max l w hw
  obtain ⟨l1, l2, hdec, hl1⟩ := foldl_saleBetter_first l w hw
  rw [hw, hdec]
  have hpw : ((l1 ++ w :: l2).all (fun x => x.total_amount ≤ w.total_amount)) = true := by
    rw [List.all_eq_true]
    intro x hx
    rw [← hdec] at hx
    simpa using hbound x hx
  have h1 : ∀ y ∈ l1, ((l1 ++ w :: l2).all
      (fun x => x.total_amount ≤ y.total_amount)) = false := by
    intro y hy
    have hwmem : w ∈ l1 ++ w :: l2 := by simp
    rw [Bool.eq_false_iff]
    intro hc
    rw [List.all_eq_true] at hc
    have := hc w hwmem
    simp only [decide_eq_true_eq] at this
    exact absurd this (not_le.2 (hl1 y hy))
  exact (find?_append_first w _ l1 l2 hpw h1).symm

/-- C7 (amended).  `bonusLargestSingleSale` over records grouped by
seller equals the direct first-encountered-maximum rule applied to the
records enumerated group by group (sellers in first-occurrence order) —
not to the raw record order, which can pick a different seller on
`total_amount` ties.  The winning amount is still the global maximum
over all purchase records, and the bonus is 10% of it. -/
theorem largestSingleSale_grouped_spec (records : List PurchaseRecord)
    (h : ∃ r ∈ records, 0 < r.total_amount) :
    bonusLargestSingleSale (groupBy records (fun r => r.seller_id)) =
      specLargestSingleSale (flattenGroups (groupBy records (fun r => r.seller_id))) ∧
    ∃ w, bonusLargestSingleSale (groupBy records (fun r => r.seller_id)) =
        some { category := "Largest Single Sale", seller_id := some w.seller_id
               bonus := round2 (w.total_amount * (1 / 10)) } ∧
      w ∈ records ∧ ∀ r ∈ records, r.total_amount ≤ w.total_amount := by
  have hmemF : ∀ x : PurchaseRecord,
      x ∈ flattenGroups (groupBy records (fun r => r.seller_id)) ↔ x ∈ records :=
    fun x => mem_flattenGroups_groupBy records (fun r => r.seller_id) x
  have hF : ∃ r ∈ flattenGroups (groupBy records (fun r => r.seller_id)),
      0 < r.total_amount := by
    obtain ⟨r, hr, hpos⟩ := h
    exact ⟨r, (hmemF r).2 hr, hpos⟩
  have houter : (groupBy records (fun r => r.seller_id)).foldl largestSaleStep none =
      (flattenGroups (groupBy records (fun r => r.seller_id))).foldl saleBetter none :=
    outer_foldl_eq_flatten _ none (Or.inl rfl)
  obtain ⟨w, hw⟩ : ∃ w, (flattenGroups (groupBy records (fun r => r.seller_id))).foldl
      saleBetter none = some w := by
    apply foldl_eventually_some saleBetter saleBetter_keep
    obtain ⟨r, hr, hpos⟩ := hF
    exact ⟨r, hr, r, by rw [saleBetter_none r, if_pos hpos]⟩
  have hfind := foldl_saleBetter_eq_find _ hF
  obtain ⟨hbound, hmem⟩ := foldl_saleBetter_max _ w hw
  constructor
  · unfold bonusLargestSingleSale specLargestSingleSale
    rw [houter, hfind]
  · refine ⟨w, ?_, (hmemF w).1 hmem, fun r hr => hbound r ((hmemF r).2 hr)⟩
    unfold bonusLargestSingleSale
    rw [houter, hw]

/-- Three concrete records with an amount tie across sellers: the raw
order sees the second seller's record first, while the grouped order
sees the first seller's later record first. -/
def recA1 : PurchaseRecord :=
  { seller_id := "sA", customer_id := "c1", date := "2024-01-01", total_amount := 5
    items := [] }

def recB1 : PurchaseRecord :=
  { seller_id := "sB", customer_id := "c1", date := "2024-01-02", total_amount := 10
    items := [] }

def recA2 : PurchaseRecord :=
  { seller_id := "sA", customer_id := "c1", date := "2024-01-03", total_amount := 10
    items := [] }

def cexRecords : List PurchaseRecord := [recA1, recB1, recA2]

/-- Counterexample to C7 as stated: on `[recA1, recB1, recA2]` the
grouped rule awards seller `sA` (via `recA2`), while the direct global
scan of `purchase_records` in raw order awards seller `sB` (via
`recB1`, the first-encountered record with maximal `total_amount`). -/
theorem largestSingleSale_global_order_cex :
    bonusLargestSingleSale (groupBy cexRecords (fun r => r.seller_id)) =
      some { category := "Largest Single Sale", seller_id := some recA2.seller_id
             bonus := 1 } ∧
    specLargestSingleSale cexRecords =
      some { category := "Largest Single Sale", seller_id := some recB1.seller_id
             bonus := 1 } ∧
    recA2.seller_id ≠ recB1.seller_id := by
  refine ⟨?_, ?_, by decide⟩ <;>
    (simp +decide [bonusLargestSingleSale, specLargestSingleSale, largestSaleStep, saleBetter,
       groupBy, bucketAdd, hasKey, updVal, flattenGroups, cexRecords, recA1, recB1, recA2]
     norm_num [round2, round_eq])

/-- Witness for the amended C7 at the concrete tie input. -/
theorem largestSingleSale_grouped_spec_witness :
    (∃ r ∈ cexRecords, 0 < r.total_amount) ∧
    bonusLargestSingleSale (groupBy cexRecords (fun r => r.seller_id)) =
      specLargestSingleSale (flattenGroups (groupBy cexRecords (fun r => r.seller_id))) :=
  ⟨⟨recB1, by decide, by decide⟩,
   (largestSingleSale_grouped_spec cexRecords ⟨recB1, by decide, by decide⟩).1⟩

/-! ## `analyzeSalesData` (§4.5): validation, aggregation, ranking

The injected `calculateBonus` is called `calculateBonus(seller, index,
sellerStats.length)`, i.e. with the seller object first.  Because the
reference strategy `calculateBonusByProfit(index, total, seller)`
expects the index first, injecting it makes its `index` parameter a
seller object and its `seller` parameter a plain number; the resulting
JS dynamics (`===` against numbers, `.profit` of a number, `undefined`
arithmetic) are modelled by `JVal`. -/

/-- A JS value as passed through the rank-bonus strategy slot: a number,
`NaN`, `undefined`, or the per-seller stats object (of which only the
`profit` property is ever read by the reference strategy). -/
inductive JVal where
  | num (q : ℚ)
  | nan
  | undef
  | sellerObj (profit : ℚ)
deriving DecidableEq, Repr

/-- `v.profit`: reading a property of a number, `NaN` or `undefined`
yields `undefined` (on a number wrapper there is no `profit`); a seller
object yields its numeric `profit`. -/
def jsGetProfit : JVal → JVal
  | JVal.sellerObj p => JVal.num p
  | _ => JVal.undef

/-- `v * c`: multiplication of `undefined`, `NaN` or an object (no
numeric coercion) by a number is `NaN`. -/
def jsMul (v : JVal) (c : ℚ) : JVal :=
  match v with
  | JVal.num q => JVal.num (q * c)
  | _ => JVal.nan

/-- `calculateBonusByProfit(index, total, seller)` from `src/main.js`.
`index === k` is strict equality against a number literal: true only
for a numeric `index` of that value (`NaN` literals never occur here,
so structural equality on `JVal` is faithful). -/
def calculateBonusByProfit (index _total seller : JVal) : JVal :=
  if index = JVal.num 0 then jsMul (jsGetProfit seller) (15 / 100)
  else if index = JVal.num 1 ∨ index = JVal.num 2 then jsMul (jsGetProfit seller) (10 / 100)
  else if index = JVal.num (-1) then JVal.num 0
  else jsMul (jsGetProfit seller) (5 / 100)

/-- The per-seller running-total record of `analyzeSalesData`. -/
structure SellerStat where
  sellerId : String
  firstName : String
  lastName : String
  startDate : String
  sellerPosition : String
  revenue : ℚ
  profit : ℚ
  sales_count : ℕ
  products_sold : List (String × ℚ)
  bonus : JVal
  top_products : List (String × ℚ)
deriving DecidableEq, Repr

/-- The injected rank-bonus strategy type: called as
`calculateBonus(seller, index, sellerStats.length)`. -/
abbrev BonusFn := SellerStat → ℕ → ℕ → JVal

/-- `calculateBonusByProfit` plugged into the `calculateBonus` slot:
the call `calculateBonus(seller, index, total)` binds the strategy's
`index` parameter to the seller object, `total` to the index, and
`seller` to the total count. -/
def injectedBonusByProfit : BonusFn := fun seller index total =>
  calculateBonusByProfit (JVal.sellerObj seller.profit) (JVal.num (index : ℚ))
    (JVal.num (total : ℚ))

/-- `calculateSimpleRevenue(purchase, _product)` from `src/main.js`. -/
def calculateSimpleRevenue (purchase : Item) (_product : Product) : ℚ :=
  purchase.sale_price * purchase.quantity * (1 - purchase.discount / 100)

/-- A raw dataset field: absent, present but not an array, or an array. -/
inductive RawField (α : Type) where
  | missing
  | notArray
  | arr (l : List α)
deriving DecidableEq

/-- The raw first argument of `analyzeSalesData`. -/
structure RawDataset where
  customers : RawField Customer
  products : RawField Product
  sellers : RawField Seller
  purchase_records : RawField PurchaseRecord

/-- A strategy slot of the options object: absent (falsy, caught by
`!calculateRevenue`), present-but-not-callable (truthy, caught by the
`typeof` check), or a function. -/
inductive StratField (φ : Type) where
  | missing
  | notCallable
  | fn (f : φ)

/-- The raw options argument.  `typeof options !== "object"` together
with the `options === null` check collapses a missing, null or
non-object argument into `notObject`. -/
inductive RawOptions where
  | notObject
  | obj (calculateRevenue : StratField (Item → Product → ℚ))
        (calculateBonus : StratField BonusFn)

def msgInvalidData : String := "invalid input data"
def msgOptionsNotObject : String := "options must be an object"
def msgMissingStrategy : String := "something is missing"
def msgStrategyNotFunction : String := "invalid variables: function required"

/-- A final report row of `analyzeSalesData`. -/
structure Report where
  seller_id : String
  name : String
  revenue : ℚ
  profit : ℚ
  sales_count : ℕ
  top_products : List (String × ℚ)
  bonus : ℚ
deriving DecidableEq, Repr

/-- The running-total record seeded from a catalog seller. -/
def initSellerStat (s : Seller) : SellerStat :=
  { sellerId := s.id, firstName := s.first_name, lastName := s.last_name
    startDate := s.start_date, sellerPosition := s.position
    revenue := 0, profit := 0, sales_count := 0, products_sold := []
    bonus := JVal.num 0, top_products := [] }

/-- `Object.fromEntries(data.products.map(p => [p.sku, p]))[sku]`: with
duplicate skus the last entry wins, hence the reversed search. -/
def productIndexFind (products : List Product) (sku : String) : Option Product :=
  products.reverse.find? (fun p => p.sku = sku)

/-- `seller.products_sold[sku] += quantity` with create-on-first-sight
(the `!value` truthiness re-initialisation of an existing 0 is a
value-preserving no-op). -/
def upsertAdd (m : List (String × ℚ)) (sku : String) (q : ℚ) : List (String × ℚ) :=
  if hasKey m sku then updVal m sku (fun v => v + q) else m ++ [(sku, q)]

/-- The item loop of `analyzeSalesData`: profit and per-sku quantities,
only for items whose sku resolves in the product index. -/
def salesItemStep (calculateRevenue : Item → Product → ℚ) (products : List Product)
    (s : SellerStat) (item : Item) : SellerStat :=
  match productIndexFind products item.sku with
  | none => s
  | some product =>
    let cost := product.purchase_price * item.quantity
    let revenue := calculateRevenue item product
    let profit := revenue - cost
    { s with profit := s.profit + profit
             products_sold := upsertAdd s.products_sold item.sku item.quantity }

/-- One matched record applied to its seller's running totals. -/
def applyRecordToSeller (calculateRevenue : Item → Product → ℚ) (products : List Product)
    (record : PurchaseRecord) (s : SellerStat) : SellerStat :=
  record.items.foldl (salesItemStep calculateRevenue products)
    { s with sales_count := s.sales_count + 1, revenue := s.revenue + record.total_amount }

/-- Update the first element satisfying `p`. -/
def updFirstP {α : Type} (p : α → Bool) (f : α → α) : List α → List α
  | [] => []
  | x :: t => if p x then f x :: t else x :: updFirstP p f t

/-- `sellerIndex[record.seller_id]` is built by `Object.fromEntries`,
where a duplicate seller id keeps the last object; mutating through the
index therefore updates the last matching stat. -/
def updateMatchedSeller (stats : List SellerStat) (sid : String)
    (f : SellerStat → SellerStat) : List SellerStat :=
  (updFirstP (fun s => s.sellerId = sid) f stats.reverse).reverse

/-- One record of the aggregation loop: a record whose seller is absent
from the index is skipped. -/
def salesRecordStep (calculateRevenue : Item → Product → ℚ) (products : List Product)
    (stats : List SellerStat) (record : PurchaseRecord) : List SellerStat :=
  if stats.any (fun s => s.sellerId = record.seller_id) then
    updateMatchedSeller stats record.seller_id
      (applyRecordToSeller calculateRevenue products record)
  else stats

/-- The aggregation phase of `analyzeSalesData`. -/
def aggregateSellerStats (sellers : List Seller) (products : List Product)
    (purchase_records : List PurchaseRecord)
    (calculateRevenue : Item → Product → ℚ) : List SellerStat :=
  purchase_records.foldl (salesRecordStep calculateRevenue products)
    (sellers.map initSellerStat)

/-- `Object.entries(seller.products_sold).map(...).sort((a,b) =>
b.quantity - a.quantity).slice(0,10)`. -/
def topProductsOf (products_sold : List (String × ℚ)) : List (String × ℚ) :=
  (sortBy (fun a b => decide (b.2 < a.2)) products_sold).take 10

/-- The `forEach((seller, index) => ...)` pass assigning bonus and
top products. -/
def assignBonusesFrom (calculateBonus : BonusFn) (total : ℕ) :
    ℕ → List SellerStat → List SellerStat
  | _, [] => []
  | i, s :: t =>
    { s with bonus := calculateBonus s i total
             top_products := topProductsOf s.products_sold } ::
      assignBonusesFrom calculateBonus total (i + 1) t

def assignBonuses (calculateBonus : BonusFn) (sorted : List SellerStat) :
    List SellerStat :=
  assignBonusesFrom calculateBonus sorted.length 0 sorted

/-- `+(seller.bonus || 0).toFixed(2)`: `NaN` and `undefined` are falsy
and collapse to 0; a number is kept (`0 || 0` is still 0). -/
def jsNumOrZero : JVal → ℚ
  | JVal.num q => q
  | _ => 0

/-- The final projection of one seller row. -/
def finalizeReport (s : SellerStat) : Report :=
  { seller_id := s.sellerId
    name := s.firstName ++ " " ++ s.lastName
    revenue := round2 s.revenue
    profit := round2 s.profit
    sales_count := s.sales_count
    top_products := s.top_products
    bonus := round2 (jsNumOrZero s.bonus) }

/-- The processing pipeline of `analyzeSalesData` after validation. -/
def runSales (sellers : List Seller) (products : List Product)
    (purchase_records : List PurchaseRecord)
    (calculateRevenue : Item → Product → ℚ) (calculateBonus : BonusFn) : List Report :=
  let sellerStats := aggregateSellerStats sellers products purchase_records calculateRevenue
  let sorted := sortBy (fun a b => decide (b.profit < a.profit)) sellerStats
  (assignBonuses calculateBonus sorted).map finalizeReport

/-- `analyzeSalesData(data, options)` from `src/main.js`: fail-fast
validation (a thrown `Error` is the `Except.error` branch, carrying no
partial result), then the pipeline. -/
def analyzeSalesData (data : Option RawDataset) (options : RawOptions) :
    Except String (List Report) :=
  match data with
  | none => Except.error msgInvalidData
  | some d =>
    match d.customers, d.products, d.sellers, d.purchase_records with
    | RawField.arr customers, RawField.arr products, RawField.arr sellers,
      RawField.arr purchase_records =>
      if customers.length = 0 ∨ products.length = 0 ∨ sellers.length = 0 ∨
          purchase_records.length = 0 then Except.error msgInvalidData
      else
        match options with
        | RawOptions.notObject => Except.error msgOptionsNotObject
        | RawOptions.obj cr cb =>
          match cr, cb with
          | StratField.fn calculateRevenue, StratField.fn calculateBonus =>
            Except.ok (runSales sellers products purchase_records calculateRevenue
              calculateBonus)
          | StratField.missing, _ => Except.error msgMissingStrategy
          | _, StratField.missing => Except.error msgMissingStrategy
          | _, _ => Except.error msgStrategyNotFunction
    | _, _, _, _ => Except.error msgInvalidData

/-! ### C4: fail-fast validation -/

/-- C4.  `analyzeSalesData` produces a result (and touches no record)
exactly when all four catalogs are present, arrays and non-empty, the
options argument is an object, and both strategies are functions; in
every other case it fails immediately with an error carrying no partial
result (the `Except.error` branch). -/
theorem analyzeSalesData_validation_spec (data : Option RawDataset) (options : RawOptions) :
    (∃ r, analyzeSalesData data options = Except.ok r) ↔
      (∃ d cs ps ss rs cr cb,
        data = some d ∧
        d.customers = RawField.arr cs ∧ d.products = RawField.arr ps ∧
        d.sellers = RawField.arr ss ∧ d.purchase_records = RawField.arr rs ∧
        cs ≠ [] ∧ ps ≠ [] ∧ ss ≠ [] ∧ rs ≠ [] ∧
        options = RawOptions.obj (StratField.fn cr) (StratField.fn cb)) := by
  constructor
  · rintro ⟨r, hr⟩
    unfold analyzeSalesData at hr
    cases data with
    | none => exact absurd hr (by simp)
    | some d =>
      obtain ⟨dc, dp, ds, dr⟩ := d
      cases dc with
      | missing => exact absurd hr (by simp)
      | notArray => exact absurd hr (by simp)
      | arr cs =>
        cases dp with
        | missing => exact absurd hr (by simp)
        | notArray => exact absurd hr (by simp)
        | arr ps =>
          cases ds with
          | missing => exact absurd hr (by simp)
          | notArray => exact absurd hr (by simp)
          | arr ss =>
            cases dr with
            | missing => exact absurd hr (by simp)
            | notArray => exact absurd hr (by simp)
            | arr rs =>
              simp only [] at hr
              by_cases hlen : cs.length = 0 ∨ ps.length = 0 ∨ ss.length = 0 ∨
                  rs.length = 0
              · rw [if_pos hlen] at hr
                exact absurd hr (by simp)
              · rw [if_neg hlen] at hr
                push_neg at hlen
                obtain ⟨h1, h2, h3, h4⟩ := hlen
                cases options with
                | notObject => exact absurd hr (by simp)
                | obj cr cb =>
                  cases cr with
                  | missing => cases cb <;> exact absurd hr (by simp)
                  | notCallable => cases cb <;> exact absurd hr (by simp)
                  | fn f =>
                    cases cb with
                    | missing => exact absurd hr (by simp)
                    | notCallable => exact absurd hr (by simp)
                    | fn g =>
                      exact ⟨⟨RawField.arr cs, RawField.arr ps, RawField.arr ss,
                        RawField.arr rs⟩, cs, ps, ss, rs, f, g, rfl, rfl, rfl, rfl, rfl,
                        fun hc => h1 (by rw [hc]; rfl),
                        fun hc => h2 (by rw [hc]; rfl),
                        fun hc => h3 (by rw [hc]; rfl),
                        fun hc => h4 (by rw [hc]; rfl), rfl⟩
  · rintro ⟨d, cs, ps, ss, rs, cr, cb, rfl, hc, hp, hs, hrr, hcne, hpne, hsne, hrne, rfl⟩
    unfold analyzeSalesData
    simp only []
    rw [hc, hp, hs, hrr]
    simp only []
    rw [if_neg (by
      push_neg
      refine ⟨?_, ?_, ?_, ?_⟩ <;>
        simp [List.length_eq_zero, hcne, hpne, hsne, hrne])]
    exact ⟨_, rfl⟩

/-- A concrete 4-seller catalog. -/
def demoSellers : List Seller :=
  [{ id := "s1", first_name := "Ann", last_name := "One", start_date := "2020-01-01"
     position := "junior" },
   { id := "s2", first_name := "Bob", last_name := "Two", start_date := "2020-01-02"
     position := "junior" },
   { id := "s3", first_name := "Cid", last_name := "Three", start_date := "2020-01-03"
     position := "junior" },
   { id := "s4", first_name := "Dee", last_name := "Four", start_date := "2020-01-04"
     position := "junior" }]

/-- A single zero-cost product, so each seller's profit equals their
item revenue. -/
def demoProduct : Product := { sku := "p1", purchase_price := 0 }

/-- One record per seller, with profits 10, 20, 30, 40. -/
def demoRecords : List PurchaseRecord :=
  [{ seller_id := "s1", customer_id := "c1", date := "2024-01-05", total_amount := 10
     items := [{ sku := "p1", sale_price := 10, quantity := 1, discount := 0 }] },
   { seller_id := "s2", customer_id := "c1", date := "2024-01-06", total_amount := 20
     items := [{ sku := "p1", sale_price := 20, quantity := 1, discount := 0 }] },
   { seller_id := "s3", customer_id := "c1", date := "2024-01-07", total_amount := 30
     items := [{ sku := "p1", sale_price := 30, quantity := 1, discount := 0 }] },
   { seller_id := "s4", customer_id := "c1", date := "2024-01-08", total_amount := 40
     items := [{ sku := "p1", sale_price := 40, quantity := 1, discount := 0 }] }]

/-- A valid concrete dataset with 4 sellers and distinct positive profits. -/
def demoData : RawDataset :=
  { customers := RawField.arr [{ id := "c1" }]
    products := RawField.arr [demoProduct]
    sellers := RawField.arr demoSellers
    purchase_records := RawField.arr demoRecords }

/-- Witness for C4: the valid demo dataset passes validation, and the
same dataset with a non-object options argument fails. -/
theorem analyzeSalesData_validation_spec_witness :
    (∃ r, analyzeSalesData (some demoData)
      (RawOptions.obj (StratField.fn calculateSimpleRevenue)
        (StratField.fn injectedBonusByProfit)) = Except.ok r) ∧
    ¬ (∃ r, analyzeSalesData (some demoData) RawOptions.notObject = Except.ok r) := by
  constructor
  · exact (analyzeSalesData_validation_spec (some demoData)
      (RawOptions.obj (StratField.fn calculateSimpleRevenue)
        (StratField.fn injectedBonusByProfit))).2
      ⟨demoData, _, _, _, _, _, _, rfl, rfl, rfl, rfl, rfl,
        by decide, by decide, by decide, by decide, rfl⟩
  · intro hex
    obtain ⟨d, cs, ps, ss, rs, cr, cb, _, _, _, _, _, _, _, _, _, hopt⟩ :=
      (analyzeSalesData_validation_spec (some demoData) RawOptions.notObject).1 hex
    exact absurd hopt (by simp)

/-! ### C2: the argument-order mismatch of the injected reference
strategy -/

/-- C2 (code bug).  `analyzeSalesData` calls the injected strategy as
`calculateBonus(seller, index, total)`, but the reference strategy
`calculateBonusByProfit(index, total, seller)` expects the rank first.
Injected, every call returns `NaN` (the seller object fails every
`=== number` test, and `.profit` of the numeric third argument is
`undefined`), so every reported bonus collapses to 0 instead of the
15%/10%/5% ladder: on the demo dataset the profits are 40, 30, 20, 10
but every bonus is 0 (rank 0 should have received 15% of 40 = 6). -/
theorem injectedBonusByProfit_nan (s : SellerStat) (i t : ℕ) :
    injectedBonusByProfit s i t = JVal.nan := by
  unfold injectedBonusByProfit calculateBonusByProfit
  rw [if_neg (by simp), if_neg (by simp), if_neg (by simp)]
  rfl

theorem analyzeSalesData_bonusByProfit_mismatch :
    (∀ (s : SellerStat) (i t : ℕ), injectedBonusByProfit s i t = JVal.nan) ∧
    ∃ res, analyzeSalesData (some demoData)
        (RawOptions.obj (StratField.fn calculateSimpleRevenue)
          (StratField.fn injectedBonusByProfit)) = Except.ok res ∧
      res.map Report.profit = [40, 30, 20, 10] ∧
      res.map Report.bonus = [0, 0, 0, 0] ∧
      round2 ((15 / 100 : ℚ) * 40) ≠ 0 := by
  refine ⟨injectedBonusByProfit_nan, _, rfl, ?_, ?_, by norm_num [round2, round_eq]⟩ <;>
    norm_num [runSales, aggregateSellerStats, salesRecordStep, updateMatchedSeller,
      updFirstP, applyRecordToSeller, salesItemStep, productIndexFind, upsertAdd, hasKey,
      updVal, initSellerStat, sortBy, insertSorted, assignBonuses, assignBonusesFrom,
      topProductsOf, finalizeReport, jsNumOrZero, injectedBonusByProfit_nan,
      calculateSimpleRevenue, round2, round_eq,
      demoData, demoSellers, demoProduct, demoRecords]

/-! ### C8: top products — size, order, and tie stability -/

theorem insertSorted_decomp {α : Type} (lt : α → α → Bool) (x : α) :
    ∀ (s : List α), ∃ s1 s2, s = s1 ++ s2 ∧
      insertSorted lt x s = s1 ++ x :: s2 ∧ ∀ y ∈ s1, lt y x = true := by
  intro s
  induction s with
  | nil => exact ⟨[], [], rfl, rfl, by simp⟩
  | cons y t ih =>
    by_cases h : lt y x
    · obtain ⟨s1, s2, hdec, hins, hall⟩ := ih
      refine ⟨y :: s1, s2, by rw [hdec, List.cons_append], ?_, ?_⟩
      · show (if lt y x = true then y :: insertSorted lt x t else x :: y :: t) = _
        rw [if_pos h, hins, List.cons_append]
      · intro z hz
        rcases List.mem_cons.1 hz with hz | hz
        · subst hz; exact h
        · exact hall z hz
    · refine ⟨[], y :: t, rfl, ?_, by simp⟩
      show (if lt y x = true then y :: insertSorted lt x t else x :: y :: t) = _
      rw [if_neg h]
      rfl

theorem mem_insertSorted {α : Type} (lt : α → α → Bool) (x z : α) (s : List α) :
    z ∈ insertSorted lt x s ↔ z = x ∨ z ∈ s := by
  obtain ⟨s1, s2, hdec, hins, _⟩ := insertSorted_decomp lt x s
  rw [hins, hdec]
  simp [List.mem_append, List.mem_cons]
  tauto

theorem mem_sortBy {α : Type} (lt : α → α → Bool) (l : List α) (z : α) :
    z ∈ sortBy lt l ↔ z ∈ l := by
  induction l with
  | nil => simp [sortBy]
  | cons a t ih =>
    show z ∈ insertSorted lt a (sortBy lt t) ↔ _
    rw [mem_insertSorted, ih]
    simp

theorem pairwise_insertSorted_key {α : Type} (key : α → ℚ) (x : α) :
    ∀ (s : List α), List.Pairwise (fun a b => key b ≤ key a) s →
      List.Pairwise (fun a b => key b ≤ key a)
        (insertSorted (fun a b => decide (key b < key a)) x s) := by
  intro s
  induction s with
  | nil => intro _; simp [insertSorted]
  | cons y t ih =>
    intro hp
    rw [List.pairwise_cons] at hp
    obtain ⟨hy, ht⟩ := hp
    show List.Pairwise _ (if decide (key x < key y) = true then
      y :: insertSorted (fun a b => decide (key b < key a)) x t else x :: y :: t)
    by_cases h : key x < key y
    · rw [if_pos (by simpa using h)]
      rw [List.pairwise_cons]
      refine ⟨?_, ih ht⟩
      intro z hz
      rcases (mem_insertSorted _ x z t).1 hz with hz | hz
      · subst hz; exact le_of_lt h
      · exact hy z hz
    · rw [if_neg (by simpa using h)]
      rw [List.pairwise_cons]
      refine ⟨?_, List.Pairwise.cons hy ht⟩
      intro z hz
      rcases List.mem_cons.1 hz with hz | hz
      · subst hz; exact not_lt.1 h
      · exact le_trans (hy z hz) (not_lt.1 h)

theorem sortBy_pairwise_key {α : Type} (key : α → ℚ) (l : List α) :
    List.Pairwise (fun a b => key b ≤ key a)
      (sortBy (fun a b => decide (key b < key a)) l) := by
  induction l with
  | nil => simp [sortBy]
  | cons a t ih =>
    exact pairwise_insertSorted_key key a _ ih

theorem sortBy_filter_key {α : Type} (key : α → ℚ) (q : ℚ) :
    ∀ (l : List α), (sortBy (fun a b => decide (key b < key a)) l).filter
        (fun e => decide (key e = q)) = l.filter (fun e => decide (key e = q)) := by
  intro l
  induction l with
  | nil => rfl
  | cons a t ih =>
    show (insertSorted (fun a b => decide (key b < key a)) a
        (sortBy (fun a b => decide (key b < key a)) t)).filter _ = _
    obtain ⟨s1, s2, hdec, hins, hall⟩ := insertSorted_decomp
      (fun a b => decide (key b < key a)) a (sortBy (fun a b => decide (key b < key a)) t)
    have hs : (sortBy (fun a b => decide (key b < key a)) t).filter
        (fun e => decide (key e = q)) = t.filter (fun e => decide (key e = q)) := ih
    rw [hdec, List.filter_append] at hs
    rw [hins, List.filter_append, List.filter_cons]
    by_cases hq : key a = q
    · have h1 : s1.filter (fun e => decide (key e = q)) = [] := by
        rw [List.filter_eq_nil_iff]
        intro y hy
        have hlt : key a < key y := by simpa using hall y hy
        simp only [decide_eq_true_eq]
        intro hc
        rw [hc, hq] at hlt
        exact absurd hlt (lt_irrefl q)
      rw [h1] at hs ⊢
      simp only [decide_eq_true_eq, hq, if_true, List.nil_append]
      rw [List.filter_cons]
      simp only [decide_eq_true_eq, hq, if_true]
      rw [← hs]
      simp
    · have hq' : (decide (key a = q)) = false := by simpa using hq
      rw [hq']
      simp only [Bool.false_eq_true, if_false]
      rw [List.filter_cons, hq']
      simp only [Bool.false_eq_true, if_false]
      rw [← hs]

theorem filter_take_prefix {α : Type} (p : α → Bool) (n : ℕ) (l : List α) :
    ((l.take n).filter p).IsPrefix (l.filter p) := by
  conv_rhs => rw [← List.take_append_drop n l]
  rw [List.filter_append]
  exact ⟨(l.drop n).filter p, rfl⟩

theorem upsertAdd_map_fst (m : List (String × ℚ)) (k : String) (q : ℚ) :
    (upsertAdd m k q).map Prod.fst =
      (if k ∈ m.map Prod.fst then m.map Prod.fst else m.map Prod.fst ++ [k]) := by
  unfold upsertAdd
  by_cases h : hasKey m k
  · rw [if_pos h, updVal_map_fst, if_pos ((hasKey_iff_mem_map_fst m k).1 h)]
  · rw [if_neg h, if_neg (fun hm => h ((hasKey_iff_mem_map_fst m k).2 hm))]
    simp

theorem upsert_fold_keys :
    ∀ (items : List Item) (m0 : List (String × ℚ)),
      ((items.foldl (fun m i => upsertAdd m i.sku i.quantity) m0).map Prod.fst) =
        (items.map Item.sku).foldl (fun ks k => if k ∈ ks then ks else ks ++ [k])
          (m0.map Prod.fst) := by
  intro items
  induction items with
  | nil => intro m0; rfl
  | cons i t ih =>
    intro m0
    simp only [List.foldl_cons, List.map_cons]
    rw [ih, upsertAdd_map_fst]

theorem salesItemStep_sellerId (cr : Item → Product → ℚ) (ps : List Product)
    (s : SellerStat) (item : Item) :
    (salesItemStep cr ps s item).sellerId = s.sellerId := by
  unfold salesItemStep
  cases productIndexFind ps item.sku <;> rfl

theorem foldl_salesItemStep_sellerId (cr : Item → Product → ℚ) (ps : List Product) :
    ∀ (items : List Item) (s : SellerStat),
      ((items.foldl (salesItemStep cr ps) s)).sellerId = s.sellerId := by
  intro items
  induction items with
  | nil => intro s; rfl
  | cons i t ih =>
    intro s
    simp only [List.foldl_cons]
    rw [ih, salesItemStep_sellerId]

theorem applyRecordToSeller_sellerId (cr : Item → Product → ℚ) (ps : List Product)
    (r : PurchaseRecord) (s : SellerStat) :
    (applyRecordToSeller cr ps r s).sellerId = s.sellerId := by
  unfold applyRecordToSeller
  rw [foldl_salesItemStep_sellerId]

theorem updFirstP_map {α β : Type} (p : α → Bool) (f : α → α) (g : α → β)
    (hg : ∀ x, g (f x) = g x) :
    ∀ (l : List α), (updFirstP p f l).map g = l.map g := by
  intro l
  induction l with
  | nil => rfl
  | cons x t ih =>
    unfold updFirstP
    by_cases h : p x
    · rw [if_pos h]
      simp [hg]
    · rw [if_neg h]
      simp [ih]

theorem updFirstP_no_match {α : Type} (p : α → Bool) (f : α → α) :
    ∀ (l : List α), (∀ x ∈ l, p x = false) → updFirstP p f l = l := by
  intro l
  induction l with
  | nil => intro _; rfl
  | cons x t ih =>
    intro h
    unfold updFirstP
    rw [if_neg (by rw [h x (by simp)]; simp)]
    rw [ih (fun y hy => h y (List.mem_cons_of_mem x hy))]

theorem updFirstP_cons {α : Type} (p : α → Bool) (f : α → α) (x : α) (t : List α) :
    updFirstP p f (x :: t) = if p x then f x :: t else x :: updFirstP p f t := by
  simp only [updFirstP]

theorem updFirstP_append {α : Type} (p : α → Bool) (f : α → α) :
    ∀ (l1 l2 : List α),
      updFirstP p f (l1 ++ l2) =
        (if l1.any p then updFirstP p f l1 ++ l2 else l1 ++ updFirstP p f l2) := by
  intro l1
  induction l1 with
  | nil => intro l2; simp [updFirstP]
  | cons x t ih =>
    intro l2
    rw [List.cons_append, updFirstP_cons, updFirstP_cons]
    by_cases h : p x
    · rw [if_pos h, if_pos h, if_pos (by simp [h]), List.cons_append]
    · rw [if_neg h, if_neg h, ih l2]
      have hany : (x :: t).any p = t.any p := by simp [List.any_cons, h]
      rw [hany]
      by_cases ht : t.any p
      · rw [if_pos ht, if_pos ht, List.cons_append]
      · rw [if_neg ht, if_neg ht, List.cons_append]

theorem updLast_eq_updFirst {α : Type} (p : α → Bool) (f : α → α) :
    ∀ (l : List α), l.countP p ≤ 1 → (updFirstP p f l.reverse).reverse = updFirstP p f l := by
  intro l
  induction l with
  | nil => intro _; rfl
  | cons x t ih =>
    intro hc
    rw [List.reverse_cons, updFirstP_cons]
    by_cases hx : p x
    · have ht0 : t.countP p = 0 := by
        rw [List.countP_cons, if_pos hx] at hc
        omega
      have hnone : ∀ y ∈ t, p y = false := by
        intro y hy
        simpa using List.countP_eq_zero.1 ht0 y hy
      have hanyrev : ¬ t.reverse.any p = true := by
        intro hany
        obtain ⟨y, hy, hpy⟩ := List.any_eq_true.1 hany
        rw [hnone y (List.mem_reverse.1 hy)] at hpy
        simp at hpy
      have hsingle : updFirstP p f [x] = [f x] := by
        rw [updFirstP_cons, if_pos hx]
      rw [updFirstP_append, if_neg hanyrev, hsingle, List.reverse_append,
        List.reverse_reverse, if_pos hx]
      simp only [List.reverse_cons, List.reverse_nil, List.nil_append, List.singleton_append]
    · have hct : t.countP p ≤ 1 := by
        rw [List.countP_cons, if_neg hx] at hc
        omega
      have hsingle : updFirstP p f [x] = [x] := by
        rw [updFirstP_cons, if_neg hx]
        rfl
      rw [updFirstP_append, if_neg hx]
      by_cases hany : t.reverse.any p
      · rw [if_pos hany, List.reverse_append]
        simp only [List.reverse_cons, List.reverse_nil, List.nil_append,
          List.singleton_append]
        rw [ih hct]
      · rw [if_neg hany, hsingle, List.reverse_append, List.reverse_reverse]
        simp only [List.reverse_cons, List.reverse_nil, List.nil_append,
          List.singleton_append]
        rw [updFirstP_no_match p f t (fun y hy => by
          rw [Bool.eq_false_iff]
          intro hpy
          exact hany (List.any_eq_true.2 ⟨y, List.mem_reverse.2 hy, hpy⟩))]

theorem countP_eq_of_nodup_map {α : Type} (g : α → String) (l : List α)
    (h : (l.map g).Nodup) (sid : String) :
    l.countP (fun x => g x = sid) ≤ 1 := by
  induction l with
  | nil => simp
  | cons x t ih =>
    rw [List.map_cons, List.nodup_cons] at h
    obtain ⟨hx, ht⟩ := h
    rw [List.countP_cons]
    by_cases hgx : g x = sid
    · rw [if_pos (by simpa using hgx)]
      have ht0 : t.countP (fun x => g x = sid) = 0 := by
        rw [List.countP_eq_zero]
        intro y hy
        simp only [decide_eq_true_eq]
        intro hc
        apply hx
        have hxy : g x = g y := by rw [hgx, hc]
        rw [hxy]
        exact List.mem_map_of_mem g hy
      omega
    · rw [if_neg (by simpa using hgx)]
      have := ih ht
      omega

theorem find?_updFirstP_self {α : Type} (p : α → Bool) (f : α → α)
    (hpf : ∀ x, p (f x) = p x) :
    ∀ (l : List α), (updFirstP p f l).find? p = (l.find? p).map f := by
  intro l
  induction l with
  | nil => rfl
  | cons x t ih =>
    rw [updFirstP_cons]
    by_cases h : p x
    · rw [if_pos h, List.find?_cons_of_pos _ (by rw [hpf]; exact h),
        List.find?_cons_of_pos _ h]
      rfl
    · rw [if_neg h, List.find?_cons_of_neg _ h, List.find?_cons_of_neg _ h]
      exact ih

theorem find?_updFirstP_other {α : Type} (p p' : α → Bool) (f : α → α)
    (hdisj : ∀ x, p' x = true → p x = false) (hpf : ∀ x, p (f x) = p x) :
    ∀ (l : List α), (updFirstP p' f l).find? p = l.find? p := by
  intro l
  induction l with
  | nil => rfl
  | cons x t ih =>
    rw [updFirstP_cons]
    by_cases h : p' x
    · have hpx : p x = false := hdisj x h
      rw [if_pos h, List.find?_cons_of_neg _ (by rw [hpf, hpx]; simp),
        List.find?_cons_of_neg _ (by rw [hpx]; simp)]
    · rw [if_neg h]
      by_cases hp : p x
      · rw [List.find?_cons_of_pos _ hp, List.find?_cons_of_pos _ hp]
      · rw [List.find?_cons_of_neg _ hp, List.find?_cons_of_neg _ hp]
        exact ih

theorem salesRecordStep_ids (cr : Item → Product → ℚ) (ps : List Product)
    (stats : List SellerStat) (r : PurchaseRecord) :
    (salesRecordStep cr ps stats r).map (fun s => s.sellerId) =
      stats.map (fun s => s.sellerId) := by
  unfold salesRecordStep
  by_cases h : stats.any (fun s => s.sellerId = r.seller_id)
  · rw [if_pos h]
    unfold updateMatchedSeller
    rw [List.map_reverse, updFirstP_map _ _ _
      (fun x => applyRecordToSeller_sellerId cr ps r x), List.map_reverse,
      List.reverse_reverse]
  · rw [if_neg h]

theorem aggregate_fold_ids (cr : Item → Product → ℚ) (ps : List Product) :
    ∀ (rs : List PurchaseRecord) (stats : List SellerStat),
      (rs.foldl (salesRecordStep cr ps) stats).map (fun s => s.sellerId) =
        stats.map (fun s => s.sellerId) := by
  intro rs
  induction rs with
  | nil => intro stats; rfl
  | cons r t ih =>
    intro stats
    simp only [List.foldl_cons]
    rw [ih, salesRecordStep_ids]

theorem updateMatchedSeller_eq (stats : List SellerStat) (sid : String)
    (f : SellerStat → SellerStat)
    (hN : (stats.map (fun s => s.sellerId)).Nodup) :
    updateMatchedSeller stats sid f = updFirstP (fun s => s.sellerId = sid) f stats :=
  updLast_eq_updFirst _ f stats
    (countP_eq_of_nodup_map (fun s => s.sellerId) stats hN sid)

theorem aggregate_find?_track (cr : Item → Product → ℚ) (ps : List Product) (sid : String) :
    ∀ (rs : List PurchaseRecord) (stats : List SellerStat),
      (stats.map (fun s => s.sellerId)).Nodup →
      (rs.foldl (salesRecordStep cr ps) stats).find? (fun s => s.sellerId = sid) =
        (stats.find? (fun s => s.sellerId = sid)).map
          (fun s0 => (rs.filter (fun r => r.seller_id = sid)).foldl
            (fun s r => applyRecordToSeller cr ps r s) s0) := by
  intro rs
  induction rs with
  | nil =>
    intro stats _
    simp
  | cons r t ih =>
    intro stats hN
    have hN' : ((salesRecordStep cr ps stats r).map (fun s => s.sellerId)).Nodup := by
      rw [salesRecordStep_ids]
      exact hN
    simp only [List.foldl_cons]
    rw [ih _ hN']
    by_cases hsid : r.seller_id = sid
    · rw [List.filter_cons, if_pos (by simpa using hsid)]
      unfold salesRecordStep
      by_cases hpres : stats.any (fun s => s.sellerId = r.seller_id)
      · rw [if_pos hpres, updateMatchedSeller_eq stats r.seller_id _ hN, hsid,
          find?_updFirstP_self (fun s => decide (s.sellerId = sid))
            (applyRecordToSeller cr ps r)
            (fun x => by simp [applyRecordToSeller_sellerId]),
          Option.map_map]
        rfl
      · rw [if_neg hpres]
        have hnone : stats.find? (fun s => s.sellerId = sid) = none := by
          rw [List.find?_eq_none]
          intro x hx
          rw [Bool.not_eq_true, Bool.eq_false_iff]
          intro hc
          apply hpres
          rw [List.any_eq_true]
          refine ⟨x, hx, ?_⟩
          rw [hsid]
          exact hc
        rw [hnone]
        rfl
    · rw [List.filter_cons, if_neg (by simpa using hsid)]
      unfold salesRecordStep
      by_cases hpres : stats.any (fun s => s.sellerId = r.seller_id)
      · rw [if_pos hpres, updateMatchedSeller_eq stats r.seller_id _ hN,
          find?_updFirstP_other (fun s => decide (s.sellerId = sid))
            (fun s => decide (s.sellerId = r.seller_id))
            (applyRecordToSeller cr ps r)
            (fun x hx => by
              simp only [decide_eq_true_eq] at hx
              simp only [decide_eq_false_iff_not]
              intro hc
              exact hsid (hx ▸ hc))
            (fun x => by simp [applyRecordToSeller_sellerId])]
      · rw [if_neg hpres]

theorem salesItemStep_products_sold (cr : Item → Product → ℚ) (ps : List Product)
    (s : SellerStat) (item : Item) :
    (salesItemStep cr ps s item).products_sold =
      if (productIndexFind ps item.sku).isSome then
        upsertAdd s.products_sold item.sku item.quantity
      else s.products_sold := by
  unfold salesItemStep
  cases productIndexFind ps item.sku <;> rfl

theorem salesItems_products_sold (cr : Item → Product → ℚ) (ps : List Product) :
    ∀ (items : List Item) (s : SellerStat),
      (items.foldl (salesItemStep cr ps) s).products_sold =
        (items.filter (fun i => (productIndexFind ps i.sku).isSome)).foldl
          (fun m i => upsertAdd m i.sku i.quantity) s.products_sold := by
  intro items
  induction items with
  | nil => intro s; rfl
  | cons i t ih =>
    intro s
    simp only [List.foldl_cons, List.filter_cons]
    by_cases h : (productIndexFind ps i.sku).isSome
    · rw [if_pos h, ih, salesItemStep_products_sold, if_pos h]
      rfl
    · rw [if_neg h, ih, salesItemStep_products_sold, if_neg h]

theorem applyRecordToSeller_products_sold (cr : Item → Product → ℚ) (ps : List Product)
    (r : PurchaseRecord) (s : SellerStat) :
    (applyRecordToSeller cr ps r s).products_sold =
      (r.items.filter (fun i => (productIndexFind ps i.sku).isSome)).foldl
        (fun m i => upsertAdd m i.sku i.quantity) s.products_sold := by
  unfold applyRecordToSeller
  rw [salesItems_products_sold]

theorem recordsFold_products_sold (cr : Item → Product → ℚ) (ps : List Product) :
    ∀ (rs : List PurchaseRecord) (s : SellerStat),
      (rs.foldl (fun s r => applyRecordToSeller cr ps r s) s).products_sold =
        ((rs.flatMap (fun r => r.items)).filter
            (fun i => (productIndexFind ps i.sku).isSome)).foldl
          (fun m i => upsertAdd m i.sku i.quantity) s.products_sold := by
  intro rs
  induction rs with
  | nil => intro s; rfl
  | cons r t ih =>
    intro s
    simp only [List.foldl_cons, List.flatMap_cons, List.filter_append, List.foldl_append]
    rw [ih, applyRecordToSeller_products_sold]

/-- The items of a seller's records that the aggregation loop actually
processes: records filtered to the seller, their items flattened, items
with an unresolvable sku dropped. -/
def processedItems (rs : List PurchaseRecord) (ps : List Product) (sid : String) : List Item :=
  ((rs.filter (fun r => r.seller_id = sid)).flatMap (fun r => r.items)).filter
    (fun i => (productIndexFind ps i.sku).isSome)

theorem find?_of_mem_nodup {α : Type} (g : α → String) :
    ∀ (l : List α) (x : α), x ∈ l → (l.map g).Nodup →
      l.find? (fun y => g y = g x) = some x := by
  intro l
  induction l with
  | nil =>
    intro x hx _
    simp at hx
  | cons a t ih =>
    intro x hx hN
    rw [List.map_cons, List.nodup_cons] at hN
    obtain ⟨ha, ht⟩ := hN
    rcases List.mem_cons.1 hx with hx | hx
    · subst hx
      rw [List.find?_cons_of_pos]
      simp
    · rw [List.find?_cons_of_neg, ih x hx ht]
      intro hc
      simp only [decide_eq_true_eq] at hc
      exact ha (hc ▸ List.mem_map_of_mem g hx)

theorem aggregate_products_sold_keys (cr : Item → Product → ℚ) (ps : List Product)
    (sellers : List Seller) (rs : List PurchaseRecord)
    (hN : (sellers.map Seller.id).Nodup) :
    ∀ s ∈ aggregateSellerStats sellers ps rs cr,
      s.products_sold.map Prod.fst =
        firstOccur ((processedItems rs ps s.sellerId).map Item.sku) := by
  intro s hs
  have hids0 : (sellers.map initSellerStat).map (fun s => s.sellerId) =
      sellers.map Seller.id := by
    rw [List.map_map]
    rfl
  have hN0 : ((sellers.map initSellerStat).map (fun s => s.sellerId)).Nodup := by
    rw [hids0]
    exact hN
  have hNAgg : ((aggregateSellerStats sellers ps rs cr).map (fun s => s.sellerId)).Nodup := by
    unfold aggregateSellerStats
    rw [aggregate_fold_ids]
    exact hN0
  have hfind := find?_of_mem_nodup (fun s => s.sellerId)
    (aggregateSellerStats sellers ps rs cr) s hs hNAgg
  rw [show aggregateSellerStats sellers ps rs cr =
      rs.foldl (salesRecordStep cr ps) (sellers.map initSellerStat) from rfl,
    aggregate_find?_track cr ps s.sellerId rs (sellers.map initSellerStat) hN0] at hfind
  cases h0 : (sellers.map initSellerStat).find? (fun y => y.sellerId = s.sellerId) with
  | none =>
    rw [h0] at hfind
    exact absurd hfind (by simp)
  | some s0 =>
    rw [h0] at hfind
    simp only [Option.map_some', Option.some_inj] at hfind
    have hs0mem : s0 ∈ sellers.map initSellerStat := List.mem_of_find?_eq_some h0
    obtain ⟨sel, _, hsel⟩ := List.mem_map.1 hs0mem
    have hps0 : s0.products_sold = [] := by
      rw [← hsel]
      rfl
    unfold processedItems
    conv_lhs => rw [← hfind]
    rw [recordsFold_products_sold, hps0, upsert_fold_keys]
    rfl

theorem mem_assignBonusesFrom (cb : BonusFn) (total : ℕ) :
    ∀ (l : List SellerStat) (i : ℕ) (t : SellerStat),
      t ∈ assignBonusesFrom cb total i l →
      ∃ s ∈ l, t.sellerId = s.sellerId ∧
        t.top_products = topProductsOf s.products_sold := by
  intro l
  induction l with
  | nil =>
    intro i t ht
    exact absurd ht (List.not_mem_nil t)
  | cons s l ih =>
    intro i t ht
    rw [show assignBonusesFrom cb total i (s :: l) =
      { s with bonus := cb s i total
               top_products := topProductsOf s.products_sold } ::
        assignBonusesFrom cb total (i + 1) l from rfl] at ht
    rcases List.mem_cons.1 ht with h | h
    · refine ⟨s, List.mem_cons_self s l, ?_, ?_⟩
      · rw [h]
      · rw [h]
    · obtain ⟨s', hs', h1, h2⟩ := ih (i + 1) t h
      exact ⟨s', List.mem_cons_of_mem s hs', h1, h2⟩

/-- C8.  In every report returned by `analyzeSalesData` (on any dataset
whose seller ids are unique, as §2 of the spec requires), the
`top_products` list has at most 10 entries, its quantities are
non-increasing, and for every quantity value the skus carrying that
quantity appear in first-encounter order of the skus in that seller's
processed records: the stable sort keeps ties in `products_sold` key
order, which is the order skus were first seen while folding the
seller's matched records. -/
theorem analyzeSalesData_top_products_spec
    (cs : List Customer) (ps : List Product) (ss : List Seller)
    (rs : List PurchaseRecord) (cr : Item → Product → ℚ) (cb : BonusFn)
    (res : List Report)
    (hN : (ss.map Seller.id).Nodup)
    (hok : analyzeSalesData
        (some { customers := RawField.arr cs, products := RawField.arr ps
                sellers := RawField.arr ss, purchase_records := RawField.arr rs })
        (RawOptions.obj (StratField.fn cr) (StratField.fn cb)) = Except.ok res) :
    ∀ rep ∈ res,
      rep.top_products.length ≤ 10 ∧
      List.Chain' (fun a b => b.2 ≤ a.2) rep.top_products ∧
      ∀ q : ℚ,
        ((rep.top_products.filter (fun e => e.2 = q)).map Prod.fst).Sublist
          (firstOccur ((processedItems rs ps rep.seller_id).map Item.sku)) := by
  unfold analyzeSalesData at hok
  simp only [] at hok
  by_cases hlen : cs.length = 0 ∨ ps.length = 0 ∨ ss.length = 0 ∨ rs.length = 0
  · rw [if_pos hlen] at hok
    exact absurd hok (by simp)
  · rw [if_neg hlen] at hok
    have hres : res = runSales ss ps rs cr cb := by
      injection hok with h
      exact h.symm
    subst hres
    intro rep hrep
    simp only [runSales, assignBonuses] at hrep
    obtain ⟨t, ht, hfin⟩ := List.mem_map.1 hrep
    obtain ⟨s, hsmem, hsid, htop⟩ := mem_assignBonusesFrom cb _ _ _ t ht
    have hsagg : s ∈ aggregateSellerStats ss ps rs cr :=
      (mem_sortBy _ _ s).1 hsmem
    have hkeys := aggregate_products_sold_keys cr ps ss rs hN s hsagg
    have htp : rep.top_products = topProductsOf s.products_sold := by
      rw [← hfin]
      exact htop
    have hrid : rep.seller_id = s.sellerId := by
      rw [← hfin]
      exact hsid
    refine ⟨?_, ?_, ?_⟩
    · rw [htp]
      simp only [topProductsOf, List.length_take]
      exact min_le_left _ _
    · rw [htp]
      simp only [topProductsOf]
      have hp := sortBy_pairwise_key (fun e : String × ℚ => e.2) s.products_sold
      exact List.Pairwise.chain' (hp.sublist (List.take_sublist 10 _))
    · intro q
      rw [htp, hrid, ← hkeys]
      simp only [topProductsOf]
      have hpre := filter_take_prefix (fun e => decide (e.2 = q)) 10
        (sortBy (fun a b => decide (b.2 < a.2)) s.products_sold)
      have heq := sortBy_filter_key (fun e : String × ℚ => e.2) q s.products_sold
      rw [heq] at hpre
      exact ((hpre.sublist).map Prod.fst).trans
        ((List.filter_sublist _).map Prod.fst)

/-- Witness for C8: on the concrete demo dataset the hypotheses hold and
every report's top-products list satisfies the three properties. -/
theorem analyzeSalesData_top_products_spec_witness :
    (demoSellers.map Seller.id).Nodup ∧
    ∃ res, analyzeSalesData (some demoData)
        (RawOptions.obj (StratField.fn calculateSimpleRevenue)
          (StratField.fn injectedBonusByProfit)) = Except.ok res ∧
      ∀ rep ∈ res,
        rep.top_products.length ≤ 10 ∧
        List.Chain' (fun a b => b.2 ≤ a.2) rep.top_products ∧
        ∀ q : ℚ,
          ((rep.top_products.filter (fun e => e.2 = q)).map Prod.fst).Sublist
            (firstOccur ((processedItems demoRecords [demoProduct]
              rep.seller_id).map Item.sku)) := by
  refine ⟨by decide, _, rfl, ?_⟩
  exact analyzeSalesData_top_products_spec [{ id := "c1" }] [demoProduct] demoSellers
    demoRecords calculateSimpleRevenue injectedBonusByProfit _ (by decide) rfl
